import Mathlib

/-!
Verification of the api-retriever entity engine.

The definitions below are a shallow embedding of the repository's code:
`util/uri_template.py`, `retriever/entity.py` and `retriever/callbacks.py`.
Python strings are modelled as `List Char` where character-level structure
matters (URI templates) and as `String` elsewhere; Python dictionaries are
modelled as insertion-ordered association lists; Python `None` is modelled
as `Option.none`; exceptions are modelled as explicit error results.
-/

set_option autoImplicit false

namespace ApiRetriever

/--
JSON values as produced by `json.loads`.  JSON `null` is omitted: Python maps
it to `None`, which the engine cannot distinguish from an absent value, so
Python `None` (including a parsed `null`) is modelled as `Option.none`
throughout.
-/
inductive Json where
  | bool : Bool → Json
  | num : Int → Json
  | str : String → Json
  | arr : List Json → Json
  | obj : List (String × Json) → Json

mutual

/-- Decidable equality for `Json` (the nested inductive defeats `deriving`). -/
def Json.decEq : (a b : Json) → Decidable (a = b)
  | .bool x, .bool y =>
    if h : x = y then .isTrue (h ▸ rfl) else .isFalse (fun hh => h (Json.bool.inj hh))
  | .num x, .num y =>
    if h : x = y then .isTrue (h ▸ rfl) else .isFalse (fun hh => h (Json.num.inj hh))
  | .str x, .str y =>
    if h : x = y then .isTrue (h ▸ rfl) else .isFalse (fun hh => h (Json.str.inj hh))
  | .arr xs, .arr ys =>
    match Json.decEqList xs ys with
    | .isTrue h => .isTrue (h ▸ rfl)
    | .isFalse h => .isFalse (fun hh => h (Json.arr.inj hh))
  | .obj xs, .obj ys =>
    match Json.decEqObj xs ys with
    | .isTrue h => .isTrue (h ▸ rfl)
    | .isFalse h => .isFalse (fun hh => h (Json.obj.inj hh))
  | .bool _, .num _ => .isFalse (fun h => Json.noConfusion h)
  | .bool _, .str _ => .isFalse (fun h => Json.noConfusion h)
  | .bool _, .arr _ => .isFalse (fun h => Json.noConfusion h)
  | .bool _, .obj _ => .isFalse (fun h => Json.noConfusion h)
  | .num _, .bool _ => .isFalse (fun h => Json.noConfusion h)
  | .num _, .str _ => .isFalse (fun h => Json.noConfusion h)
  | .num _, .arr _ => .isFalse (fun h => Json.noConfusion h)
  | .num _, .obj _ => .isFalse (fun h => Json.noConfusion h)
  | .str _, .bool _ => .isFalse (fun h => Json.noConfusion h)
  | .str _, .num _ => .isFalse (fun h => Json.noConfusion h)
  | .str _, .arr _ => .isFalse (fun h => Json.noConfusion h)
  | .str _, .obj _ => .isFalse (fun h => Json.noConfusion h)
  | .arr _, .bool _ => .isFalse (fun h => Json.noConfusion h)
  | .arr _, .num _ => .isFalse (fun h => Json.noConfusion h)
  | .arr _, .str _ => .isFalse (fun h => Json.noConfusion h)
  | .arr _, .obj _ => .isFalse (fun h => Json.noConfusion h)
  | .obj _, .bool _ => .isFalse (fun h => Json.noConfusion h)
  | .obj _, .num _ => .isFalse (fun h => Json.noConfusion h)
  | .obj _, .str _ => .isFalse (fun h => Json.noConfusion h)
  | .obj _, .arr _ => .isFalse (fun h => Json.noConfusion h)

/-- Decidable equality for lists of `Json`. -/
def Json.decEqList : (xs ys : List Json) → Decidable (xs = ys)
  | [], [] => .isTrue rfl
  | [], _ :: _ => .isFalse (fun h => List.noConfusion h)
  | _ :: _, [] => .isFalse (fun h => List.noConfusion h)
  | x :: xs, y :: ys =>
    match Json.decEq x y with
    | .isFalse h1 => .isFalse (fun h => h1 (List.cons.inj h).1)
    | .isTrue h1 =>
      match Json.decEqList xs ys with
      | .isTrue h2 => .isTrue (by rw [h1, h2])
      | .isFalse h2 => .isFalse (fun h => h2 (List.cons.inj h).2)

/-- Decidable equality for JSON object field lists. -/
def Json.decEqObj : (xs ys : List (String × Json)) → Decidable (xs = ys)
  | [], [] => .isTrue rfl
  | [], _ :: _ => .isFalse (fun h => List.noConfusion h)
  | _ :: _, [] => .isFalse (fun h => List.noConfusion h)
  | (k1, v1) :: xs, (k2, v2) :: ys =>
    if hk : k1 = k2 then
      match Json.decEq v1 v2 with
      | .isFalse h1 => .isFalse (fun h => h1 (congrArg Prod.snd (List.cons.inj h).1))
      | .isTrue h1 =>
        match Json.decEqObj xs ys with
        | .isTrue h2 => .isTrue (by rw [hk, h1, h2])
        | .isFalse h2 => .isFalse (fun h => h2 (List.cons.inj h).2)
    else .isFalse (fun h => hk (congrArg Prod.fst (List.cons.inj h).1))

end

instance : DecidableEq Json := Json.decEq

/-- Lookup in an insertion-ordered association list (Python `d.get(key)` / `key in d`). -/
def lookupVal {κ α : Type} [DecidableEq κ] : List (κ × α) → κ → Option α
  | [], _ => none
  | (k, v) :: rest, key => if k = key then some v else lookupVal rest key

/--
Python dictionary assignment `d[key] = v`: an existing key keeps its position
and gets the new value, a new key is appended at the end.
-/
def dictSet {κ α : Type} [DecidableEq κ] : List (κ × α) → κ → α → List (κ × α)
  | [], key, nv => [(key, nv)]
  | (k, v) :: rest, key, nv =>
    if k = key then (k, nv) :: rest else (k, v) :: dictSet rest key nv

/-- Python `dict.fromkeys(ks)`: keys in first-occurrence order, all values `None`. -/
def dict_fromkeys {κ α : Type} [DecidableEq κ] (ks : List κ) : List (κ × Option α) :=
  ks.foldl (fun d k => dictSet d k none) []

/--
One element of a parsed output-parameter mapping (a JSON array in the
configuration file): a string marker (`"."`, `"*"`, or anything else), a list
of dictionary keys, or an inner mapping from list-element parameter names to
key lists.
-/
inductive MapElem where
  | str : String → MapElem
  | keys : List String → MapElem
  | inner : List (String × List String) → MapElem
  deriving DecidableEq

/-- A parsed output-parameter access path, e.g. `[".", ["login"]]` or `["*"]`. -/
abbrev Mapping := List MapElem

/--
Modelled from the spec: `get_value_from_nested_dictionary`
(`util/data_processing.py`, which is not under `src/`): "remaining elements
are a sequence of keys applied left-to-right as nested-object field lookups.
Any missing key along the way signals failure" (a `KeyError`).  A non-object
intermediate value with keys remaining is likewise treated as a failed lookup.
-/
def get_value_from_nested_dictionary : Json → List String → Except Unit Json
  | j, [] => .ok j
  | .obj fields, key :: rest =>
    match lookupVal fields key with
    | some v => get_value_from_nested_dictionary v rest
    | none => .error ()
  | _, _ :: _ => .error ()

/--
A value stored in `Entity.output_parameters`: either a JSON value, or the
list of per-array-element records produced by the list-with-inner-mapping
branch of extraction (each record maps an inner parameter name to a value or
`None`).
-/
inductive OutVal where
  | json : Json → OutVal
  | records : List (List (String × Option Json)) → OutVal
  deriving DecidableEq

/-- The `Entity.output_parameters` dictionary: parameter name to value-or-`None`. -/
abbrev OutState := List (String × Option OutVal)

/--
Python `for element in json_response`: a JSON array yields its elements, a
JSON object yields its keys, a JSON string yields its one-character
substrings; a number or boolean raises `TypeError` (`none`).
-/
def pyIter : Json → Option (List Json)
  | .arr xs => some xs
  | .obj fields => some (fields.map (fun f => .str f.1))
  | .str s => some (s.data.map (fun c => .str (String.mk [c])))
  | _ => none

/-- Exceptions that can escape `Entity._extract_output_parameters`. -/
inductive ExtractErr where
  /-- `IllegalConfigurationError`: first mapping element neither `"."` nor `"*"`. -/
  | configError
  /-- `IndexError`: `mapping[1]` accessed on a too-short mapping. -/
  | indexError
  /-- `TypeError`/`AttributeError` from a duck-typing failure. -/
  | typeError
  deriving DecidableEq

/--
Result of processing a single output parameter inside the extraction loop:
continue with the next parameter, return from the whole method, or propagate
an exception.  The state is carried in all three cases because Python mutates
`self.output_parameters` in place.
-/
inductive StepR where
  | cont : OutState → StepR
  | ret : OutState → StepR
  | err : OutState → ExtractErr → StepR

/-- The output state carried by a `StepR`. -/
def StepR.state : StepR → OutState
  | .cont st => st
  | .ret st => st
  | .err st _ => st

/--
The body of the `for parameter in ...output_parameter_mapping.keys()` loop of
`Entity._extract_output_parameters` (entity.py lines 212-259), for one entry
`(parameter, mapping)`.
-/
def extractOne (entry : String × Mapping) (json_response : Json) (st : OutState) : StepR :=
  let parameter := entry.1
  let mapping := entry.2
  match mapping.head? with
  | none => .err st .indexError
  | some (MapElem.str h) =>
    if h = "*" then
      if mapping.length = 1 then
        -- save complete list: overwrite-in-loop, then return
        match pyIter json_response with
        | some elements =>
          .ret (elements.foldl (fun s element => dictSet s parameter (some (.json element))) st)
        | none => .err st .typeError
      else if mapping.length = 2 then
        match mapping.get? 1 with
        | some (MapElem.inner list_element_mapping) =>
          match pyIter json_response with
          | some elements =>
            let extracted_list_elements := elements.map (fun element =>
              list_element_mapping.map (fun ip =>
                (ip.1, (get_value_from_nested_dictionary element ip.2).toOption)))
            .ret (dictSet st parameter (some (.records extracted_list_elements)))
          | none => .err st .typeError
        | _ => .err st .typeError
      else
        -- length ≥ 3 with head "*": neither inner length check fires, and the
        -- elif/else of the source attach to the outer head test, so the loop
        -- body ends and extraction silently continues with the next parameter
        .cont st
    else if h = "." then
      match mapping.get? 1 with
      | none => .err st .indexError
      | some (MapElem.keys access_path) =>
        match get_value_from_nested_dictionary json_response access_path with
        | .ok parameter_value => .cont (dictSet st parameter (some (.json parameter_value)))
        | .error _ => .cont (dictSet st parameter none)  -- KeyError: logged, value becomes None
      | some _ => .err st .typeError
    else .err st .configError
  | some _ => .err st .configError

/--
`Entity._extract_output_parameters` (entity.py lines 205-259): fold the loop
body over the output-parameter mapping entries in insertion order, with the
Python control flow of `return` and uncaught exceptions.
-/
def extract_output_parameters :
    List (String × Mapping) → Json → OutState → OutState × Option ExtractErr
  | [], _, st => (st, none)
  | entry :: rest, j, st =>
    match extractOne entry j st with
    | .cont st2 => extract_output_parameters rest j st2
    | .ret st2 => (st2, none)
    | .err st2 e => (st2, some e)

/-! ### Association-list lemmas -/

theorem lookupVal_dictSet_self {κ α : Type} [DecidableEq κ] (s : List (κ × α)) (k : κ) (v : α) :
    lookupVal (dictSet s k v) k = some v := by
  induction s with
  | nil => simp [dictSet, lookupVal]
  | cons e rest ih =>
    obtain ⟨k', v'⟩ := e
    by_cases h : k' = k <;> simp [dictSet, lookupVal, h, ih]

theorem lookupVal_dictSet_ne {κ α : Type} [DecidableEq κ] (s : List (κ × α)) (k q : κ) (v : α)
    (hne : q ≠ k) : lookupVal (dictSet s k v) q = lookupVal s q := by
  have hkq : k ≠ q := Ne.symm hne
  induction s with
  | nil => simp [dictSet, lookupVal, hkq]
  | cons e rest ih =>
    obtain ⟨k', v'⟩ := e
    by_cases h : k' = k
    · subst h
      simp [dictSet, lookupVal, hkq]
    · simp [dictSet, lookupVal, h, ih]

theorem lookupVal_foldl_dictSet_ne {κ α β : Type} [DecidableEq κ] (xs : List β) (s : List (κ × α))
    (k q : κ) (f : β → α) (hne : q ≠ k) :
    lookupVal (xs.foldl (fun a x => dictSet a k (f x)) s) q = lookupVal s q := by
  induction xs generalizing s with
  | nil => rfl
  | cons x rest ih => simp [List.foldl_cons, ih, lookupVal_dictSet_ne _ _ _ _ hne]

/-- The overwrite-in-loop pattern: after folding assignments over a non-empty
list, the key holds the value computed from the last element. -/
theorem lookupVal_foldl_dictSet_last {κ α β : Type} [DecidableEq κ] (xs : List β) (s : List (κ × α))
    (k : κ) (f : β → α) (hxs : xs ≠ []) :
    lookupVal (xs.foldl (fun a x => dictSet a k (f x)) s) k = some (f (xs.getLast hxs)) := by
  obtain ⟨ys, z, rfl⟩ : ∃ ys z, xs = ys ++ [z] := by
    rcases List.eq_nil_or_concat xs with h | ⟨ys, z, h⟩
    · exact absurd h hxs
    · exact ⟨ys, z, by simpa [List.concat_eq_append] using h⟩
  rw [List.foldl_append, List.getLast_append]
  simp [lookupVal_dictSet_self]

theorem lookupVal_dict_fromkeys_aux {κ α : Type} [DecidableEq κ] (ks : List κ)
    (d : List (κ × Option α)) (q : κ) :
    lookupVal (ks.foldl (fun a k => dictSet a k none) d) q
      = if q ∈ ks then some none else lookupVal d q := by
  induction ks generalizing d with
  | nil => simp
  | cons k rest ih =>
    simp only [List.foldl_cons, ih, List.mem_cons]
    by_cases hq : q ∈ rest
    · simp [hq]
    · by_cases hk : q = k
      · subst hk
        simp [hq, lookupVal_dictSet_self]
      · simp [hq, hk, lookupVal_dictSet_ne _ _ _ _ hk]

theorem lookupVal_dict_fromkeys {κ α : Type} [DecidableEq κ] (ks : List κ) (q : κ) (hq : q ∈ ks) :
    lookupVal (dict_fromkeys (α := α) ks) q = some none := by
  simp [dict_fromkeys, lookupVal_dict_fromkeys_aux, hq]

/-! ### Shapes of access paths -/

/-- A dictionary-style access path: `["." , [keys...], ...]`. -/
def DotShaped (m : Mapping) : Prop :=
  ∃ ks tl, m = MapElem.str "." :: MapElem.keys ks :: tl

/-- A list-style access path: first element is the string `"*"`. -/
def StarHead (m : Mapping) : Prop := m.head? = some (MapElem.str "*")

/-- An access path whose first element is neither `"."` nor `"*"`. -/
def BadHead (m : Mapping) : Prop :=
  match m.head? with
  | some (MapElem.str s) => s ≠ "." ∧ s ≠ "*"
  | some _ => True
  | none => False

/-! ### Single-step lemmas about `extractOne` -/

/-- Processing one output parameter only ever writes that parameter's key. -/
theorem extractOne_preserves_other (entry : String × Mapping) (j : Json) (st : OutState)
    (q : String) (hq : q ≠ entry.1) :
    lookupVal (extractOne entry j st).state q = lookupVal st q := by
  obtain ⟨p, m⟩ := entry
  simp only at hq
  match m with
  | [] => simp [extractOne, StepR.state]
  | MapElem.keys _ :: _ => simp [extractOne, StepR.state]
  | MapElem.inner _ :: _ => simp [extractOne, StepR.state]
  | [MapElem.str h] =>
    by_cases hstar : h = "*"
    · subst hstar
      cases hit : pyIter j with
      | none => simp [extractOne, hit, StepR.state]
      | some elements =>
        simp [extractOne, hit, StepR.state, lookupVal_foldl_dictSet_ne _ _ _ _ _ hq]
    · by_cases hdot : h = "."
      · subst hdot
        simp [extractOne, hstar, StepR.state]
      · simp [extractOne, hstar, hdot, StepR.state]
  | [MapElem.str h, el2] =>
    by_cases hstar : h = "*"
    · subst hstar
      cases el2 with
      | str s2 => simp [extractOne, StepR.state]
      | keys ks2 => simp [extractOne, StepR.state]
      | inner im =>
        cases hit : pyIter j with
        | none => simp [extractOne, hit, StepR.state]
        | some elements =>
          simp [extractOne, hit, StepR.state, lookupVal_dictSet_ne _ _ _ _ hq]
    · by_cases hdot : h = "."
      · subst hdot
        cases el2 with
        | str s2 => simp [extractOne, hstar, StepR.state]
        | inner im => simp [extractOne, hstar, StepR.state]
        | keys ks =>
          cases hv : get_value_from_nested_dictionary j ks with
          | ok v =>
            simp [extractOne, hstar, hv, StepR.state, lookupVal_dictSet_ne _ _ _ _ hq]
          | error e =>
            simp [extractOne, hstar, hv, StepR.state, lookupVal_dictSet_ne _ _ _ _ hq]
      · simp [extractOne, hstar, hdot, StepR.state]
  | MapElem.str h :: el2 :: el3 :: tl =>
    by_cases hstar : h = "*"
    · subst hstar
      simp [extractOne, StepR.state]
    · by_cases hdot : h = "."
      · subst hdot
        cases el2 with
        | str s2 => simp [extractOne, hstar, StepR.state]
        | inner im => simp [extractOne, hstar, StepR.state]
        | keys ks =>
          cases hv : get_value_from_nested_dictionary j ks with
          | ok v =>
            simp [extractOne, hstar, hv, StepR.state, lookupVal_dictSet_ne _ _ _ _ hq]
          | error e =>
            simp [extractOne, hstar, hv, StepR.state, lookupVal_dictSet_ne _ _ _ _ hq]
      · simp [extractOne, hstar, hdot, StepR.state]

/-- A dictionary-style entry always continues to the next parameter,
having written only its own key. -/
theorem extractOne_dot_cont (p : String) (m : Mapping) (j : Json) (st : OutState)
    (hm : DotShaped m) :
    ∃ v, extractOne (p, m) j st = .cont (dictSet st p v) := by
  obtain ⟨ks, tl, rfl⟩ := hm
  cases hv : get_value_from_nested_dictionary j ks with
  | ok w => exact ⟨some (.json w), by simp [extractOne, hv]⟩
  | error e => exact ⟨none, by simp [extractOne, hv]⟩

/-- A list-style entry of the grammar's two forms — `["*"]` or `["*", inner]`
(length 1 or 2) — never continues to the next parameter: it either returns
from extraction or raises.  (A star-headed mapping of length ≥ 3 does
continue: the source's `elif`/`else` attach to the outer head test, so no
branch body runs for it.) -/
theorem extractOne_star_stops (p : String) (m : Mapping) (j : Json) (st st2 : OutState)
    (hm : StarHead m) (hlen : m.length = 1 ∨ m.length = 2) :
    extractOne (p, m) j st ≠ .cont st2 := by
  match m, hm with
  | MapElem.str _ :: tl, hm =>
    simp only [StarHead, List.head?] at hm
    cases hm
    match tl with
    | [] => cases hit : pyIter j <;> simp [extractOne, hit]
    | [el2] => cases el2 <;> cases hit : pyIter j <;> simp [extractOne, hit]
    | el2 :: el3 :: tl2 =>
      rcases hlen with h | h <;> simp [List.length_cons] at h
  | MapElem.keys _ :: _, hm => simp [StarHead, List.head?] at hm
  | MapElem.inner _ :: _, hm => simp [StarHead, List.head?] at hm
  | [], hm => simp [StarHead, List.head?] at hm

/-- An entry whose first element is neither `"."` nor `"*"` raises
`IllegalConfigurationError` without touching the state. -/
theorem extractOne_bad_head (p : String) (m : Mapping) (j : Json) (st : OutState)
    (hm : BadHead m) : extractOne (p, m) j st = .err st .configError := by
  match m with
  | [] => simp [BadHead, List.head?] at hm
  | MapElem.keys _ :: _ => simp [extractOne]
  | MapElem.inner _ :: _ => simp [extractOne]
  | MapElem.str s :: tl =>
    simp only [BadHead, List.head?] at hm
    obtain ⟨h1, h2⟩ := hm
    match tl with
    | [] => simp [extractOne, h1, h2]
    | _ :: _ => simp [extractOne, h1, h2]

/-! ### Lemmas about the extraction fold -/

/-- Dictionary-style entries at the front of the mapping are processed and
passed over: extraction continues on the remaining entries from some state. -/
theorem extract_dot_front (pre rest : List (String × Mapping)) (j : Json) (st : OutState)
    (hpre : ∀ e ∈ pre, DotShaped e.2) :
    ∃ st', extract_output_parameters (pre ++ rest) j st
      = extract_output_parameters rest j st' := by
  induction pre generalizing st with
  | nil => exact ⟨st, rfl⟩
  | cons e pre' ih =>
    obtain ⟨v, hv⟩ := extractOne_dot_cont e.1 e.2 j st (hpre e (by simp))
    obtain ⟨st', hst'⟩ := ih (dictSet st e.1 v) (fun e' he' => hpre e' (by simp [he']))
    refine ⟨st', ?_⟩
    rw [List.cons_append, extract_output_parameters, hv]
    exact hst'

/-- Once extraction has stopped at a list-style entry of length 1 or 2, every
key other than the keys written so far keeps its value; in particular any
parameter that comes after that entry in iteration order is never written. -/
theorem extract_star_preserves (pre : List (String × Mapping)) (p : String) (m : Mapping)
    (post : List (String × Mapping)) (q : String) (j : Json) (st : OutState)
    (hm : StarHead m) (hlen : m.length = 1 ∨ m.length = 2)
    (hqpre : q ∉ pre.map Prod.fst) (hqp : q ≠ p) :
    lookupVal (extract_output_parameters (pre ++ (p, m) :: post) j st).1 q
      = lookupVal st q := by
  induction pre generalizing st with
  | nil =>
    rw [List.nil_append, extract_output_parameters]
    cases hstep : extractOne (p, m) j st with
    | cont st2 => exact absurd hstep (extractOne_star_stops p m j st st2 hm hlen)
    | ret st2 =>
      have hpres := extractOne_preserves_other (p, m) j st q hqp
      rw [hstep] at hpres
      simp only [StepR.state] at hpres
      exact hpres
    | err st2 e =>
      have hpres := extractOne_preserves_other (p, m) j st q hqp
      rw [hstep] at hpres
      simp only [StepR.state] at hpres
      exact hpres
  | cons e pre' ih =>
    have hqe : q ≠ e.1 := by
      intro h
      exact hqpre (by simp [h])
    have hqpre' : q ∉ pre'.map Prod.fst := fun h => hqpre (by simp [h])
    rw [List.cons_append, extract_output_parameters]
    cases hstep : extractOne e j st with
    | cont st2 =>
      have hpres := extractOne_preserves_other e j st q hqe
      rw [hstep] at hpres
      simp only [StepR.state] at hpres
      rw [ih st2 hqpre', hpres]
    | ret st2 =>
      have hpres := extractOne_preserves_other e j st q hqe
      rw [hstep] at hpres
      simp only [StepR.state] at hpres
      exact hpres
    | err st2 er =>
      have hpres := extractOne_preserves_other e j st q hqe
      rw [hstep] at hpres
      simp only [StepR.state] at hpres
      exact hpres

/-! ### Claim C5: list path without inner mapping takes the last element -/

/--
C5: For every output parameter whose access path is the list mapping `["*"]`
with no inner mapping, and every JSON array response with at least one
element, extraction assigns that output parameter the last array element
verbatim (the documented last-wins overwrite-in-loop semantics).  The
hypothesis on the earlier entries pins down that the entry is reached:
dictionary-style entries never return early and never raise.
-/
theorem star_no_inner_takes_last_element
    (pre post : List (String × Mapping)) (p : String) (st : OutState)
    (xs : List Json) (hxs : xs ≠ [])
    (hpre : ∀ e ∈ pre, DotShaped e.2) :
    lookupVal (extract_output_parameters (pre ++ (p, [MapElem.str "*"]) :: post)
        (Json.arr xs) st).1 p
      = some (some (OutVal.json (xs.getLast hxs))) := by
  obtain ⟨st', hst'⟩ :=
    extract_dot_front pre ((p, [MapElem.str "*"]) :: post) (Json.arr xs) st hpre
  rw [hst', extract_output_parameters]
  have hone : extractOne (p, [MapElem.str "*"]) (Json.arr xs) st'
      = .ret (xs.foldl (fun s element => dictSet s p (some (.json element))) st') := by
    simp [extractOne, pyIter]
  rw [hone]
  exact lookupVal_foldl_dictSet_last xs st' p _ hxs

/-- Witness for C5 at a concrete input: a two-element array response, with one
dictionary-style entry before the `["*"]` entry, yields the second element. -/
theorem star_no_inner_takes_last_element_witness :
    ([Json.num 1, Json.num 2] ≠ ([] : List Json)) ∧
    lookupVal (extract_output_parameters
        [("first", [MapElem.str ".", MapElem.keys ["k"]]), ("name", [MapElem.str "*"])]
        (Json.arr [Json.num 1, Json.num 2]) (dict_fromkeys ["first", "name"])).1 "name"
      = some (some (OutVal.json (Json.num 2))) := by
  refine ⟨by decide, ?_⟩
  exact star_no_inner_takes_last_element
    [("first", [MapElem.str ".", MapElem.keys ["k"]])] [] "name"
    (dict_fromkeys ["first", "name"]) [Json.num 1, Json.num 2] (by decide)
    (by
      intro e he
      simp only [List.mem_singleton] at he
      subst he
      exact ⟨["k"], [], rfl⟩)

/-! ### Claim C6: a missing key fails only that parameter -/

/--
C6: For a dictionary-style access path `[".", [keys...]]`, when some key along
the path is missing from the JSON object, extraction of that single output
parameter fails — its value becomes absent (`None`) — and extraction simply
continues with the remaining output parameters of the mapping.
-/
theorem dot_missing_key_fails_single_parameter
    (p : String) (ks : List String) (tl : Mapping) (rest : List (String × Mapping))
    (j : Json) (st : OutState)
    (hmiss : get_value_from_nested_dictionary j ks = .error ()) :
    extract_output_parameters ((p, MapElem.str "." :: MapElem.keys ks :: tl) :: rest) j st
        = extract_output_parameters rest j (dictSet st p none) ∧
    lookupVal (dictSet st p none) p = some none := by
  constructor
  · rw [extract_output_parameters]
    have hone : extractOne (p, MapElem.str "." :: MapElem.keys ks :: tl) j st
        = .cont (dictSet st p none) := by
      simp [extractOne, hmiss]
    rw [hone]
  · exact lookupVal_dictSet_self st p none

/-- Witness for C6 at a concrete input: looking up `login` in `{"id": 1}`
fails, the parameter becomes absent, and the sibling parameter is still
extracted afterwards. -/
theorem dot_missing_key_fails_single_parameter_witness :
    get_value_from_nested_dictionary (Json.obj [("id", Json.num 1)]) ["login"]
        = .error () ∧
    extract_output_parameters
        [("name", [MapElem.str ".", MapElem.keys ["login"]]),
         ("ident", [MapElem.str ".", MapElem.keys ["id"]])]
        (Json.obj [("id", Json.num 1)]) (dict_fromkeys ["name", "ident"])
      = extract_output_parameters [("ident", [MapElem.str ".", MapElem.keys ["id"]])]
          (Json.obj [("id", Json.num 1)])
          (dictSet (dict_fromkeys ["name", "ident"]) "name" none) := by
  refine ⟨rfl, ?_⟩
  exact (dot_missing_key_fails_single_parameter "name" ["login"] []
    [("ident", [MapElem.str ".", MapElem.keys ["id"]])]
    (Json.obj [("id", Json.num 1)]) (dict_fromkeys ["name", "ident"]) rfl).1

/-! ### Claim C7: an unknown first element is a fatal configuration error -/

/--
C7 counterexample: the claim states that every mapping entry whose first
element is neither `"."` nor `"*"` causes an immediate fatal configuration
error.  In this concrete configuration the entry `("b", ["q"])` has such a
first element, yet extraction finishes without any error, because the earlier
list-style entry `("a", ["*"])` makes `_extract_output_parameters` return
before the offending entry is ever examined.
-/
theorem bad_head_not_always_fatal :
    (("b", [MapElem.str "q"]) ∈ [("a", [MapElem.str "*"]), ("b", [MapElem.str "q"])] ∧
      BadHead [MapElem.str "q"]) ∧
    (extract_output_parameters [("a", [MapElem.str "*"]), ("b", [MapElem.str "q"])]
        (Json.arr [Json.num 1]) (dict_fromkeys ["a", "b"])).2 = none := by
  refine ⟨⟨by decide, ?_⟩, by decide⟩
  simp only [BadHead, List.head?]
  exact ⟨by decide, by decide⟩

/--
C7 (amended): for every output parameter mapping entry whose first element is
neither `"."` nor `"*"`, if extraction reaches that entry — all entries before
it are dictionary-style, so none of them returns early or raises — it raises
`IllegalConfigurationError`, which is fatal to the whole extraction (and,
being uncaught, to the whole run): the fold stops with a configuration error.
-/
theorem bad_head_fatal_when_reached
    (pre post : List (String × Mapping)) (p : String) (m : Mapping) (j : Json)
    (st : OutState)
    (hpre : ∀ e ∈ pre, DotShaped e.2) (hm : BadHead m) :
    (extract_output_parameters (pre ++ (p, m) :: post) j st).2
      = some ExtractErr.configError := by
  obtain ⟨st', hst'⟩ := extract_dot_front pre ((p, m) :: post) j st hpre
  rw [hst', extract_output_parameters, extractOne_bad_head p m j st' hm]

/-- Witness for the amended C7 at a concrete input: a mapping whose second
entry starts with `"q"` makes extraction stop with a configuration error. -/
theorem bad_head_fatal_when_reached_witness :
    BadHead [MapElem.str "q"] ∧
    (extract_output_parameters
        [("a", [MapElem.str ".", MapElem.keys ["k"]]), ("b", [MapElem.str "q"])]
        (Json.obj [("k", Json.num 1)]) (dict_fromkeys ["a", "b"])).2
      = some ExtractErr.configError := by
  have hbad : BadHead [MapElem.str "q"] := by
    simp only [BadHead, List.head?]
    exact ⟨by decide, by decide⟩
  refine ⟨hbad, ?_⟩
  exact bad_head_fatal_when_reached [("a", [MapElem.str ".", MapElem.keys ["k"]])] []
    "b" [MapElem.str "q"] (Json.obj [("k", Json.num 1)]) (dict_fromkeys ["a", "b"])
    (by
      intro e he
      simp only [List.mem_singleton] at he
      subst he
      exact ⟨["k"], [], rfl⟩)
    hbad

/-! ### Claim C10: parameters after a list-style entry are never extracted -/

/--
C10 counterexample: the claim states that extraction returns immediately
after processing the first entry whose first element is `"*"`, leaving every
later output parameter absent.  For a star-headed mapping with three or more
elements this is false: neither of the source's inner length checks fires,
and the `elif`/`else` attach to the outer `mapping[0] == "*"` test, so the
loop body ends and extraction silently continues.  Concretely, with the
three-element list-style entry `("c", ["*", [], []])` first and
`("after", [".", ["id"]])` second, the later parameter IS extracted: its
final value is `7`, not the absent value the claim predicts.
-/
theorem star_length_three_not_early_return :
    StarHead [MapElem.str "*", MapElem.keys [], MapElem.keys []] ∧
    ((([("c", [MapElem.str "*", MapElem.keys [], MapElem.keys []]),
        ("after", [MapElem.str ".", MapElem.keys ["id"]])] :
        List (String × Mapping)).map Prod.fst)).Nodup ∧
    lookupVal (extract_output_parameters
        [("c", [MapElem.str "*", MapElem.keys [], MapElem.keys []]),
         ("after", [MapElem.str ".", MapElem.keys ["id"]])]
        (Json.obj [("id", Json.num 7)]) (dict_fromkeys ["c", "after"])).1 "after"
      = some (some (OutVal.json (Json.num 7))) := by
  exact ⟨rfl, by decide, by decide⟩

/--
C10 (amended): For every output parameter mapping containing a list-style
entry of one of the two forms the access-path grammar defines — `["*"]` or
`["*", inner]`, i.e. of length 1 or 2 — extraction stops at the first such
entry: it returns after processing it, or raises if the second element is
malformed; so every output parameter that comes after it in the mapping's
iteration order keeps its initial absent value, regardless of its own access
path.  A star-headed mapping of length ≥ 3 is not such a stopping point: the
source's `elif`/`else` attach to the outer head test, so that entry is
silently skipped and later parameters are still extracted.  The
key-distinctness hypothesis reflects that the mapping is a Python dictionary.
-/
theorem params_after_star_left_absent
    (pre post : List (String × Mapping)) (p q : String) (m : Mapping) (j : Json)
    (hnodup : (((pre ++ (p, m) :: post).map Prod.fst)).Nodup)
    (hm : StarHead m) (hlen : m.length = 1 ∨ m.length = 2)
    (hq : q ∈ post.map Prod.fst) :
    lookupVal (extract_output_parameters (pre ++ (p, m) :: post) j
        (dict_fromkeys ((pre ++ (p, m) :: post).map Prod.fst))).1 q = some none := by
  rw [List.map_append, List.map_cons] at hnodup
  have hsplit := List.nodup_append.mp hnodup
  have hqpre : q ∉ pre.map Prod.fst := by
    intro hqin
    exact hsplit.2.2 hqin (List.mem_cons_of_mem _ hq)
  have hqp : q ≠ p := by
    intro h
    subst h
    exact (List.nodup_cons.mp hsplit.2.1).1 hq
  rw [extract_star_preserves pre p m post q j _ hm hlen hqpre hqp]
  refine lookupVal_dict_fromkeys _ q ?_
  simp only [List.map_append, List.map_cons, List.mem_append, List.mem_cons]
  exact Or.inr (Or.inr hq)

/-- Witness for the amended C10 at a concrete input: the parameter `"after"`
that follows the `["*"]` entry stays absent even though its own access path
could have been extracted. -/
theorem params_after_star_left_absent_witness :
    ((([("c", [MapElem.str "*"]), ("after", [MapElem.str ".", MapElem.keys ["id"]])] :
        List (String × Mapping)).map Prod.fst)).Nodup ∧
    (([MapElem.str "*"] : Mapping).length = 1 ∨ ([MapElem.str "*"] : Mapping).length = 2) ∧
    lookupVal (extract_output_parameters
        [("c", [MapElem.str "*"]), ("after", [MapElem.str ".", MapElem.keys ["id"]])]
        (Json.arr [Json.obj [("id", Json.num 7)]]) (dict_fromkeys ["c", "after"])).1
        "after"
      = some none := by
  refine ⟨by decide, Or.inl rfl, ?_⟩
  exact params_after_star_left_absent [] [("after", [MapElem.str ".", MapElem.keys ["id"]])]
    "c" "after" [MapElem.str "*"] (Json.arr [Json.obj [("id", Json.num 7)]])
    (by decide) rfl (Or.inl rfl) (by simp)

/-! ### URI templates (`util/uri_template.py`) -/

/-- A `\w` character of the placeholder pattern: alphanumeric or underscore. -/
def wChar (c : Char) : Bool := c.isAlphanum || c = '_'

/--
Modelled from the spec: `URI_TEMPLATE_VARS_REGEX.findall` (`util/regex.py`,
which is not under `src/`): "Placeholder discovery uses a fixed pattern
matching `{identifier}` tokens (identifier = alphanumerics/underscore)" — the
identifier groups of all non-overlapping matches, scanning left to right.
-/
def findVars : List Char → List (List Char)
  | [] => []
  | c :: rest =>
    if c = '\x7b' then
      let name := rest.takeWhile wChar
      if name ≠ [] ∧ (rest.drop name.length).head? = some '\x7d' then
        name :: findVars (rest.drop (name.length + 1))
      else
        findVars rest
    else findVars rest
termination_by s => s.length
decreasing_by
  · simp only [List.length_drop, List.length_cons]
    omega
  · simp only [List.length_cons]
    omega
  · simp only [List.length_cons]
    omega

/--
Python `str.replace`, on character lists: replace all non-overlapping
occurrences of `pattern`, scanning left to right.
-/
def replaceAll (pattern rep : List Char) : List Char → List Char
  | [] => []
  | c :: rest =>
    if h : pattern ≠ [] ∧ pattern <+: (c :: rest) then
      rep ++ replaceAll pattern rep (List.drop pattern.length (c :: rest))
    else
      c :: replaceAll pattern rep rest
termination_by s => s.length
decreasing_by
  · have hlen : 0 < pattern.length := List.length_pos.mpr h.1
    simp only [List.length_drop, List.length_cons]
    omega
  · simp only [List.length_cons]
    omega

/--
The body of the `for variable in uri_variables` loop of
`URITemplate.replace_variables` (uri_template.py lines 24-29): a present,
non-empty value is substituted with `uri.replace("{" + variable + "}",
value)`; otherwise line 29 constructs `IllegalArgumentError(...)` but neither
raises nor logs the exception object, so that branch has no effect at all.
-/
def replaceStep (variable_values : List (List Char × List Char))
    (uri vname : List Char) : List Char :=
  match lookupVal variable_values vname with
  | some value =>
    if value ≠ [] then
      replaceAll ('\x7b' :: (vname ++ ['\x7d'])) value uri
    else uri
  | none => uri

/-- `URITemplate.replace_variables` (uri_template.py lines 14-31). -/
def replace_variables (uri_template_str : List Char)
    (variable_values : List (List Char × List Char)) : List Char :=
  (findVars uri_template_str).foldl (replaceStep variable_values) uri_template_str

/-! ### Token view of templates, for stating the URI-resolution claim -/

/-- A template cut into literal characters and `{name}` placeholders. -/
inductive Tok where
  | lit : Char → Tok
  | var : List Char → Tok
  deriving DecidableEq

/-- Flatten a token list back into the template text. -/
def untok : List Tok → List Char
  | [] => []
  | .lit c :: ts => c :: untok ts
  | .var a :: ts => '\x7b' :: (a ++ '\x7d' :: untok ts)

/-- Well-formed token: a literal character is not a brace; a placeholder name
is a non-empty `\w` identifier. -/
def wfTok : Tok → Bool
  | .lit c => c ≠ '\x7b' && c ≠ '\x7d'
  | .var a => !a.isEmpty && a.all wChar

/-- Well-formed template: every token is well-formed. -/
def wfToks (ts : List Tok) : Bool := ts.all wfTok

/-- A replacement value containing no brace characters. -/
def braceFree (v : List Char) : Bool := v.all (fun c => c ≠ '\x7b' && c ≠ '\x7d')

/-- The placeholder names of a template, in order, with multiplicity. -/
def varNames : List Tok → List (List Char)
  | [] => []
  | .lit _ :: ts => varNames ts
  | .var a :: ts => a :: varNames ts

/--
The claim's own description of URI resolution, written from the spec's words
for refinement comparison: every `{name}` placeholder occurrence whose
variable has a non-empty value is replaced with exactly that value; all other
placeholders and all literal characters are untouched.
-/
def specRender (variable_values : List (List Char × List Char)) : List Tok → List Char
  | [] => []
  | .lit c :: ts => c :: specRender variable_values ts
  | .var a :: ts =>
    match lookupVal variable_values a with
    | some v =>
      if v ≠ [] then v ++ specRender variable_values ts
      else '\x7b' :: (a ++ '\x7d' :: specRender variable_values ts)
    | none => '\x7b' :: (a ++ '\x7d' :: specRender variable_values ts)

/-- Substitute one variable's placeholders by a literal value, at token level. -/
def substTok (a v : List Char) : List Tok → List Tok
  | [] => []
  | .lit c :: ts => .lit c :: substTok a v ts
  | .var b :: ts =>
    if b = a then v.map Tok.lit ++ substTok a v ts else .var b :: substTok a v ts

/-- Simultaneous token-level substitution of all variables in `vars`. -/
def allSubst (variable_values : List (List Char × List Char)) (vars : List (List Char)) :
    List Tok → List Tok
  | [] => []
  | .lit c :: ts => .lit c :: allSubst variable_values vars ts
  | .var b :: ts =>
    if b ∈ vars then
      match lookupVal variable_values b with
      | some v =>
        if v ≠ [] then v.map Tok.lit ++ allSubst variable_values vars ts
        else .var b :: allSubst variable_values vars ts
      | none => .var b :: allSubst variable_values vars ts
    else .var b :: allSubst variable_values vars ts

/-! ### Lemmas about tokenized templates -/

theorem untok_append (ts1 ts2 : List Tok) :
    untok (ts1 ++ ts2) = untok ts1 ++ untok ts2 := by
  induction ts1 with
  | nil => rfl
  | cons t ts ih => cases t <;> simp [untok, ih]

theorem untok_map_lit (v : List Char) : untok (v.map Tok.lit) = v := by
  induction v with
  | nil => rfl
  | cons c cs ih => simp [untok, ih]

theorem wfToks_cons (t : Tok) (ts : List Tok) (h : wfToks (t :: ts) = true) :
    wfTok t = true ∧ wfToks ts = true := by
  simpa [wfToks] using h

theorem wfTok_lit (c : Char) (h : wfTok (Tok.lit c) = true) :
    c ≠ '\x7b' ∧ c ≠ '\x7d' := by
  simpa [wfTok] using h

theorem wfTok_var (a : List Char) (h : wfTok (Tok.var a) = true) :
    a ≠ [] ∧ ∀ c ∈ a, wChar c = true := by
  simp only [wfTok, Bool.and_eq_true, Bool.not_eq_true', List.all_eq_true] at h
  exact ⟨by simpa [List.isEmpty_iff] using h.1, h.2⟩

theorem varNames_wf (ts : List Tok) (hts : wfToks ts = true) :
    ∀ a ∈ varNames ts, a ≠ [] ∧ ∀ c ∈ a, wChar c = true := by
  induction ts with
  | nil => simp [varNames]
  | cons t ts ih =>
    obtain ⟨ht, hts'⟩ := wfToks_cons t ts hts
    cases t with
    | lit c => simpa [varNames] using ih hts'
    | var a =>
      intro b hb
      rcases (List.mem_cons.mp hb) with heq | hmem
      · exact heq ▸ wfTok_var a ht
      · exact ih hts' b hmem

theorem var_mem_varNames (b : List Char) (ts : List Tok) (h : Tok.var b ∈ ts) :
    b ∈ varNames ts := by
  induction ts with
  | nil => simp at h
  | cons t ts ih =>
    rcases List.mem_cons.mp h with heq | hmem
    · subst heq
      simp [varNames]
    · cases t <;> simp [varNames, ih hmem]

/-! ### Lemmas about the placeholder scanner -/

theorem takeWhile_wChar_append (a : List Char) (d : Char) (s : List Char)
    (ha : ∀ c ∈ a, wChar c = true) (hd : wChar d = false) :
    (a ++ d :: s).takeWhile wChar = a := by
  induction a with
  | nil => simp [List.takeWhile_cons, hd]
  | cons c cs ih =>
    simp [List.takeWhile_cons, ha c (by simp),
      ih (fun c' hc' => ha c' (by simp [hc']))]

theorem findVars_cons_other (c : Char) (s : List Char) (hc : c ≠ '\x7b') :
    findVars (c :: s) = findVars s := by
  rw [findVars]
  simp [hc]

theorem findVars_var (a s : List Char) (ha : a ≠ [])
    (hw : ∀ c ∈ a, wChar c = true) :
    findVars ('\x7b' :: (a ++ '\x7d' :: s)) = a :: findVars s := by
  have htake : (a ++ '\x7d' :: s).takeWhile wChar = a :=
    takeWhile_wChar_append a _ s hw (by decide)
  have hdrop1 : List.drop a.length (a ++ '\x7d' :: s) = '\x7d' :: s := List.drop_left a _
  have hdrop2 : List.drop (a.length + 1) (a ++ '\x7d' :: s) = s := by
    have h2 : a ++ '\x7d' :: s = (a ++ ['\x7d']) ++ s := by simp
    have h3 : a.length + 1 = (a ++ ['\x7d']).length := by simp
    rw [h2, h3, List.drop_left]
  rw [findVars]
  simp [htake, hdrop1, hdrop2, ha]

theorem findVars_untok (ts : List Tok) (hts : wfToks ts = true) :
    findVars (untok ts) = varNames ts := by
  induction ts with
  | nil => simp [untok, findVars, varNames]
  | cons t ts ih =>
    obtain ⟨ht, hts'⟩ := wfToks_cons t ts hts
    cases t with
    | lit c =>
      have hc := (wfTok_lit c ht).1
      rw [show untok (Tok.lit c :: ts) = c :: untok ts from rfl,
        findVars_cons_other c _ hc, ih hts']
      rfl
    | var a =>
      obtain ⟨ha, hw⟩ := wfTok_var a ht
      rw [show untok (Tok.var a :: ts) = '\x7b' :: (a ++ '\x7d' :: untok ts) from rfl,
        findVars_var a _ ha hw, ih hts']
      rfl

/-! ### Lemmas about `replaceAll` -/

theorem replaceAll_nil (pattern rep : List Char) : replaceAll pattern rep [] = [] := by
  rw [replaceAll]

theorem replaceAll_cons_no_match (pattern rep : List Char) (c : Char) (rest : List Char)
    (h : ¬ pattern <+: (c :: rest)) :
    replaceAll pattern rep (c :: rest) = c :: replaceAll pattern rep rest := by
  rw [replaceAll]
  simp [h]

theorem replaceAll_head_match (pattern rep rest : List Char) (hne : pattern ≠ []) :
    replaceAll pattern rep (pattern ++ rest) = rep ++ replaceAll pattern rep rest := by
  match pattern, hne with
  | p :: ps, _ =>
    rw [List.cons_append, replaceAll]
    have hpre : (p :: ps) <+: (p :: (ps ++ rest)) := by
      rw [← List.cons_append]
      exact List.prefix_append _ _
    rw [dif_pos ⟨by simp, hpre⟩]
    congr 1
    rw [← List.cons_append]
    rw [show List.drop (p :: ps).length ((p :: ps) ++ rest) = rest from List.drop_left _ _]

theorem replaceAll_skip_chunk (ps rep x s : List Char)
    (hx : ∀ c ∈ x, c ≠ '\x7b') :
    replaceAll ('\x7b' :: ps) rep (x ++ s) = x ++ replaceAll ('\x7b' :: ps) rep s := by
  induction x with
  | nil => rfl
  | cons c cs ih =>
    have hc : c ≠ '\x7b' := hx c (by simp)
    have hnp : ¬ ('\x7b' :: ps) <+: (c :: (cs ++ s)) := by
      intro hp
      obtain ⟨t, ht⟩ := hp
      rw [List.cons_append] at ht
      exact hc ((List.cons.inj ht).1).symm
    rw [List.cons_append, replaceAll_cons_no_match _ _ _ _ hnp,
      ih (fun c' hc' => hx c' (by simp [hc']))]
    rfl

/-- Two distinct `\w` identifiers followed by a closing brace can never align:
`a}` is not a prefix of `b}s` when `a ≠ b`. -/
theorem name_pattern_no_prefix (a : List Char) :
    ∀ (b s : List Char), a ≠ b → (∀ c ∈ a, wChar c = true) →
      (∀ c ∈ b, wChar c = true) → ¬ ((a ++ ['\x7d']) <+: (b ++ '\x7d' :: s)) := by
  induction a with
  | nil =>
    intro b s hab _ hwb hp
    cases b with
    | nil => exact hab rfl
    | cons y b' =>
      obtain ⟨t, ht⟩ := hp
      have hy : '\x7d' = y := (List.cons.inj (by simpa using ht)).1
      have hwy : wChar y = true := hwb y (by simp)
      rw [← hy] at hwy
      exact absurd hwy (by decide)
  | cons x a' ih =>
    intro b s hab hwa hwb hp
    cases b with
    | nil =>
      obtain ⟨t, ht⟩ := hp
      have hx : x = '\x7d' := (List.cons.inj (by simpa using ht)).1
      have hwx : wChar x = true := hwa x (by simp)
      rw [hx] at hwx
      exact absurd hwx (by decide)
    | cons y b' =>
      obtain ⟨t, ht⟩ := hp
      simp only [List.cons_append, List.append_assoc] at ht
      have hxy := (List.cons.inj ht).1
      have htail : (a' ++ ['\x7d']) ++ t = b' ++ '\x7d' :: s := by
        simpa using (List.cons.inj ht).2
      have hab' : a' ≠ b' := by
        intro h
        exact hab (by rw [hxy, h])
      exact ih b' s hab' (fun c hc => hwa c (by simp [hc]))
        (fun c hc => hwb c (by simp [hc])) ⟨t, htail⟩

/-- Replacing `{a}` in a well-formed template is exactly token-level
substitution of the variable `a`. -/
theorem replaceAll_untok (a v : List Char) (ts : List Tok)
    (hwa : ∀ c ∈ a, wChar c = true) (hts : wfToks ts = true) :
    replaceAll ('\x7b' :: (a ++ ['\x7d'])) v (untok ts) = untok (substTok a v ts) := by
  induction ts with
  | nil => simp [untok, substTok, replaceAll_nil]
  | cons t ts ih =>
    obtain ⟨ht, hts'⟩ := wfToks_cons t ts hts
    cases t with
    | lit c =>
      have hc := (wfTok_lit c ht).1
      have hnp : ¬ ('\x7b' :: (a ++ ['\x7d'])) <+: (c :: untok ts) := by
        intro hp
        obtain ⟨t', ht'⟩ := hp
        rw [List.cons_append] at ht'
        exact hc ((List.cons.inj ht').1).symm
      rw [show untok (Tok.lit c :: ts) = c :: untok ts from rfl,
        replaceAll_cons_no_match _ _ _ _ hnp, ih hts']
      rfl
    | var b =>
      obtain ⟨hb, hwb⟩ := wfTok_var b ht
      by_cases hba : b = a
      · subst hba
        have hshape : untok (Tok.var b :: ts) = ('\x7b' :: (b ++ ['\x7d'])) ++ untok ts := by
          simp [untok]
        rw [hshape, replaceAll_head_match _ _ _ (by simp), ih hts']
        simp [substTok, untok_append, untok_map_lit]
      · have hshape : untok (Tok.var b :: ts)
            = '\x7b' :: ((b ++ ['\x7d']) ++ untok ts) := by
          simp [untok]
        have hnp : ¬ ('\x7b' :: (a ++ ['\x7d']))
            <+: ('\x7b' :: ((b ++ ['\x7d']) ++ untok ts)) := by
          intro hp
          obtain ⟨t', ht'⟩ := hp
          have htail : a ++ '\x7d' :: t' = b ++ '\x7d' :: untok ts := by
            simpa using ht'
          refine name_pattern_no_prefix a b (untok ts) (fun h => hba h.symm) hwa hwb ?_
          exact ⟨t', by simpa using htail⟩
        have hchunk : ∀ c ∈ b ++ ['\x7d'], c ≠ '\x7b' := by
          intro c hc
          rcases List.mem_append.mp hc with h | h
          · intro heq
            have := hwb c h
            rw [heq] at this
            exact absurd this (by decide)
          · simp only [List.mem_singleton] at h
            subst h
            decide
        rw [hshape, replaceAll_cons_no_match _ _ _ _ hnp,
          replaceAll_skip_chunk _ _ _ _ hchunk, ih hts']
        simp [substTok, hba, untok]

/-! ### The replacement fold at token level -/

/-- Token-level mirror of one `replaceStep`. -/
def tokStep (variable_values : List (List Char × List Char)) (ts : List Tok)
    (a : List Char) : List Tok :=
  match lookupVal variable_values a with
  | some v => if v ≠ [] then substTok a v ts else ts
  | none => ts

theorem lookupVal_mem {κ α : Type} [DecidableEq κ] (l : List (κ × α)) (k : κ) (v : α)
    (h : lookupVal l k = some v) : (k, v) ∈ l := by
  induction l with
  | nil => simp [lookupVal] at h
  | cons e rest ih =>
    obtain ⟨k', v'⟩ := e
    by_cases hk : k' = k
    · subst hk
      have h' : v' = v := by simpa [lookupVal] using h
      subst h'
      simp
    · simp only [lookupVal, if_neg hk] at h
      exact List.mem_cons_of_mem _ (ih h)

theorem wfToks_substTok (a v : List Char) (ts : List Tok)
    (hv : braceFree v = true) (hts : wfToks ts = true) :
    wfToks (substTok a v ts) = true := by
  have hv' : ∀ c ∈ v, (c ≠ '\x7b' && c ≠ '\x7d') = true := by
    simpa [braceFree, List.all_eq_true] using hv
  have hlits : (v.map Tok.lit).all wfTok = true := by
    rw [List.all_eq_true]
    intro t ht
    obtain ⟨c, hc, rfl⟩ := List.mem_map.mp ht
    simpa [wfTok] using hv' c hc
  induction ts with
  | nil => simpa [substTok] using hts
  | cons t ts ih =>
    obtain ⟨ht, hts'⟩ := wfToks_cons t ts hts
    cases t with
    | lit c => simpa [substTok, wfToks, ht] using ih hts'
    | var b =>
      by_cases hba : b = a
      · subst hba
        rw [show substTok b v (Tok.var b :: ts) = v.map Tok.lit ++ substTok b v ts
          from by simp [substTok]]
        simp only [wfToks, List.all_append, Bool.and_eq_true]
        exact ⟨hlits, by simpa [wfToks] using ih hts'⟩
      · simp only [substTok, if_neg hba]
        simpa [wfToks, ht] using ih hts'

theorem wfToks_tokStep (m : List (List Char × List Char)) (ts : List Tok) (a : List Char)
    (hm : ∀ kv ∈ m, braceFree kv.2 = true) (hts : wfToks ts = true) :
    wfToks (tokStep m ts a) = true := by
  unfold tokStep
  cases hl : lookupVal m a with
  | none => exact hts
  | some v =>
    by_cases hv : v = []
    · simp [hv, hts]
    · simp only [if_pos hv]
      exact wfToks_substTok a v ts (hm (a, v) (lookupVal_mem m a v hl)) hts

theorem replaceStep_untok (m : List (List Char × List Char)) (ts : List Tok) (a : List Char)
    (hwa : ∀ c ∈ a, wChar c = true)
    (hm : ∀ kv ∈ m, braceFree kv.2 = true) (hts : wfToks ts = true) :
    replaceStep m (untok ts) a = untok (tokStep m ts a) := by
  unfold replaceStep tokStep
  cases hl : lookupVal m a with
  | none => rfl
  | some v =>
    by_cases hv : v = []
    · simp [hv]
    · simp only [if_pos hv]
      exact replaceAll_untok a v ts hwa hts

theorem foldl_replaceStep (m : List (List Char × List Char)) (vars : List (List Char))
    (ts : List Tok)
    (hvars : ∀ a ∈ vars, ∀ c ∈ a, wChar c = true)
    (hm : ∀ kv ∈ m, braceFree kv.2 = true) (hts : wfToks ts = true) :
    vars.foldl (replaceStep m) (untok ts) = untok (vars.foldl (tokStep m) ts) := by
  induction vars generalizing ts with
  | nil => rfl
  | cons a vars' ih =>
    simp only [List.foldl_cons]
    rw [replaceStep_untok m ts a (hvars a (by simp)) hm hts]
    exact ih (tokStep m ts a) (fun a' ha' => hvars a' (by simp [ha']))
      (wfToks_tokStep m ts a hm hts)

/-! ### Simultaneous-substitution view of the fold -/

theorem allSubst_nil_vars (m : List (List Char × List Char)) (ts : List Tok) :
    allSubst m [] ts = ts := by
  induction ts with
  | nil => rfl
  | cons t ts ih => cases t <;> simp [allSubst, ih]

theorem allSubst_lit_append (m : List (List Char × List Char)) (vars : List (List Char))
    (v : List Char) (ts : List Tok) :
    allSubst m vars (v.map Tok.lit ++ ts) = v.map Tok.lit ++ allSubst m vars ts := by
  induction v with
  | nil => rfl
  | cons c cs ih => simp [allSubst, ih]

theorem allSubst_cons_var_noop (m : List (List Char × List Char)) (a : List Char)
    (vars : List (List Char)) (ts : List Tok)
    (hl : lookupVal m a = none ∨ lookupVal m a = some []) :
    allSubst m (a :: vars) ts = allSubst m vars ts := by
  induction ts with
  | nil => rfl
  | cons t ts ih =>
    cases t with
    | lit c => simp [allSubst, ih]
    | var b =>
      by_cases hba : b = a
      · subst hba
        rcases hl with hl | hl <;>
          simp [allSubst, hl, ih]
      · by_cases hbv : b ∈ vars
        · simp [allSubst, hba, hbv, ih]
        · simp [allSubst, hba, hbv, ih]

theorem allSubst_subst (m : List (List Char × List Char)) (a v : List Char)
    (vars : List (List Char)) (ts : List Tok)
    (hl : lookupVal m a = some v) (hv : v ≠ []) :
    allSubst m vars (substTok a v ts) = allSubst m (a :: vars) ts := by
  induction ts with
  | nil => rfl
  | cons t ts ih =>
    cases t with
    | lit c => simp [substTok, allSubst, ih]
    | var b =>
      by_cases hba : b = a
      · subst hba
        rw [show substTok b v (Tok.var b :: ts) = v.map Tok.lit ++ substTok b v ts
          from by simp [substTok]]
        rw [allSubst_lit_append, ih]
        simp [allSubst, hl, hv, List.mem_cons]
      · simp only [substTok, if_neg hba]
        by_cases hbv : b ∈ vars
        · simp [allSubst, hba, hbv, ih]
        · simp [allSubst, hba, hbv, ih]

theorem foldl_tokStep_allSubst (m : List (List Char × List Char))
    (vars : List (List Char)) (ts : List Tok) :
    vars.foldl (tokStep m) ts = allSubst m vars ts := by
  induction vars generalizing ts with
  | nil => simp [allSubst_nil_vars]
  | cons a vars' ih =>
    simp only [List.foldl_cons]
    cases hl : lookupVal m a with
    | none =>
      rw [show tokStep m ts a = ts from by simp [tokStep, hl], ih,
        allSubst_cons_var_noop m a vars' ts (Or.inl hl)]
    | some v =>
      by_cases hv : v = []
      · subst hv
        rw [show tokStep m ts a = ts from by simp [tokStep, hl], ih,
          allSubst_cons_var_noop m a vars' ts (Or.inr hl)]
      · rw [show tokStep m ts a = substTok a v ts from by simp [tokStep, hl, hv], ih,
          allSubst_subst m a v vars' ts hl hv]

theorem untok_allSubst (m : List (List Char × List Char)) (vars : List (List Char))
    (ts : List Tok) (hcover : ∀ b, Tok.var b ∈ ts → b ∈ vars) :
    untok (allSubst m vars ts) = specRender m ts := by
  induction ts with
  | nil => rfl
  | cons t ts ih =>
    have ih' := ih (fun b hb => hcover b (by simp [hb]))
    cases t with
    | lit c => simp [allSubst, untok, specRender, ih']
    | var b =>
      have hbv : b ∈ vars := hcover b (by simp)
      cases hl : lookupVal m b with
      | none => simp [allSubst, specRender, hbv, hl, untok, ih']
      | some v =>
        by_cases hv : v = []
        · simp [allSubst, specRender, hbv, hl, hv, untok, ih']
        · simp [allSubst, specRender, hbv, hl, hv, untok_append, untok_map_lit, untok, ih']

/-! ### Claim C9: URI resolution is literal simultaneous substitution -/

/--
C9 counterexample: the claim states that resolving a template replaces every
placeholder occurrence of a non-empty-valued variable with exactly that value.
Take the template `{a} {b}` with values `a ↦ "{b}"` and `b ↦ "2"`.  The claim
predicts `{b} 2` (the occurrence of `{a}` becomes the three characters
`{b}`).  The code performs sequential global `str.replace` calls, so the text
substituted for `{a}` is rewritten again by the later replacement of `{b}`,
yielding `2 2`.
-/
theorem replace_variables_not_literal_substitution :
    wfToks [Tok.var ['a'], Tok.lit ' ', Tok.var ['b']] = true ∧
    replace_variables (untok [Tok.var ['a'], Tok.lit ' ', Tok.var ['b']])
        [(['a'], ['\x7b', 'b', '\x7d']), (['b'], ['2'])]
      ≠ specRender [(['a'], ['\x7b', 'b', '\x7d']), (['b'], ['2'])]
        [Tok.var ['a'], Tok.lit ' ', Tok.var ['b']] := by
  refine ⟨by decide, ?_⟩
  intro heq
  have h1 : replace_variables (untok [Tok.var ['a'], Tok.lit ' ', Tok.var ['b']])
      [(['a'], ['\x7b', 'b', '\x7d']), (['b'], ['2'])] = ['2', ' ', '2'] := by
    simp +decide [replace_variables, replaceStep, findVars, replaceAll, untok, lookupVal]
  rw [h1] at heq
  exact absurd heq (by decide)

/--
C9 (amended): for every template — presented as an alternation of non-brace
literal characters and `{name}` placeholders — and every variable mapping
whose values contain no brace characters, resolution equals literal
simultaneous substitution: every occurrence of each `{name}` placeholder
whose variable has a non-empty value is replaced with exactly that value (all
occurrences of the same variable get the same value), every other character
is untouched, and in particular a template containing no placeholders
resolves to itself unchanged.  (The brace-freeness hypothesis is forced by
the counterexample: a value that itself contains a placeholder is rewritten
again by a later replacement.)
-/
theorem replace_variables_is_literal_substitution
    (ts : List Tok) (m : List (List Char × List Char))
    (hts : wfToks ts = true) (hm : ∀ kv ∈ m, braceFree kv.2 = true) :
    replace_variables (untok ts) m = specRender m ts := by
  unfold replace_variables
  rw [findVars_untok ts hts,
    foldl_replaceStep m (varNames ts) ts (fun a ha => (varNames_wf ts hts a ha).2) hm hts,
    foldl_tokStep_allSubst m (varNames ts) ts,
    untok_allSubst m (varNames ts) ts (fun b hb => var_mem_varNames b ts hb)]

/-- Witness for the amended C9 at a concrete input: `{a}/{b}` with `a ↦ "1"`,
`b ↦ "22"` resolves to the simultaneous substitution of both placeholders. -/
theorem replace_variables_is_literal_substitution_witness :
    (wfToks [Tok.var ['a'], Tok.lit '/', Tok.var ['b']] = true ∧
      ∀ kv ∈ [(['a'], ['1']), (['b'], ['2', '2'])], braceFree kv.2 = true) ∧
    replace_variables (untok [Tok.var ['a'], Tok.lit '/', Tok.var ['b']])
        [(['a'], ['1']), (['b'], ['2', '2'])]
      = specRender [(['a'], ['1']), (['b'], ['2', '2'])]
        [Tok.var ['a'], Tok.lit '/', Tok.var ['b']] := by
  refine ⟨⟨by decide, by decide⟩, ?_⟩
  exact replace_variables_is_literal_substitution
    [Tok.var ['a'], Tok.lit '/', Tok.var ['b']]
    [(['a'], ['1']), (['b'], ['2', '2'])] (by decide) (by decide)

/-! ### Claim C3: a missing URI variable is not signaled -/

/--
C3: the claim states that a variable discovered in the template but absent
(or empty) in the mapping causes an "illegal argument" condition to be
signaled — per the spec's note, at least logged.  In the source
(uri_template.py line 29) the expression
`IllegalArgumentError("Value for URI variable " + variable + " missing.")`
constructs the exception object but never raises it and never logs anything;
the branch is dead and resolution silently returns the URI with the
placeholder left in place.  This theorem evaluates the embedded code at the
failing input: the template `{a}` with an empty mapping resolves, without any
error effect (the function is total with no error channel, mirroring the
dead branch), to `{a}` unchanged.
-/
theorem missing_uri_variable_not_signaled :
    replace_variables ['\x7b', 'a', '\x7d'] [] = ['\x7b', 'a', '\x7d'] := by
  simp +decide [replace_variables, replaceStep, findVars, lookupVal]

/-! ### Entities and the entity list (`retriever/entity.py`) -/

/--
One API entity (`Entity.__init__` attributes).  The configuration is passed
to the operations explicitly instead of being stored in the entity; Python
strings are kept as `String` for parameter names and values, and as
`List Char` for the URI (which needs character-level structure).
-/
structure Entity where
  input_parameters : List (String × Option String)
  output_parameters : OutState
  uri : List Char
  deriving DecidableEq

/--
A pre-request callback: an arbitrary function of the entity, tagged with the
parameter count that `inspect.signature` reports for it.  Callbacks are
modelled as total functions (none of the claims involves a raising callback).
-/
structure PreCallback where
  parameter_count : Nat
  run : Entity → Entity

/--
A post-request callback: receives the entity (and, when `parameter_count` is
2, the parsed JSON response) and returns the possibly mutated entity together
with its boolean result.
-/
structure PostCallback where
  parameter_count : Nat
  run : Entity → Option Json → Entity × Bool

/--
`EntityConfiguration` (entity.py lines 27-76), restricted to the fields the
retrieval engine reads: the callback lists hold the already-resolved callback
functions.  `name` (used only to name the output file) and the delay bounds
(wall-clock sleeping) are not modelled.
-/
structure EntityConfiguration where
  input_parameters : List String
  output_parameter_mapping : List (String × Mapping)
  uri_template : List Char
  api_key : List Char
  pre_request_callbacks : List PreCallback
  post_request_callbacks : List PostCallback
  ignore_duplicates : Bool

/-- The `for parameter in configuration.input_parameters` loop of
`Entity.__init__` (entity.py lines 116-119): a parameter missing from
`input_parameter_values` raises `IllegalArgumentError`. -/
def setInputs (input_parameter_values : List (String × String)) :
    List String → List (String × Option String) → Except Unit (List (String × Option String))
  | [], d => .ok d
  | parameter :: rest, d =>
    match lookupVal input_parameter_values parameter with
    | none => .error ()
    | some v => setInputs input_parameter_values rest (dictSet d parameter (some v))

/-- `Entity.__init__` (entity.py lines 100-126). -/
def Entity.init (configuration : EntityConfiguration)
    (input_parameter_values : List (String × String)) : Except Unit Entity :=
  match setInputs input_parameter_values configuration.input_parameters
      (dict_fromkeys configuration.input_parameters) with
  | .error () => .error ()
  | .ok inputs =>
    .ok { input_parameters := inputs
          output_parameters :=
            dict_fromkeys (configuration.output_parameter_mapping.map Prod.fst)
          uri := replace_variables configuration.uri_template
            (("api_key".data, configuration.api_key)
              :: inputs.map (fun kv => (kv.1.data, (kv.2.getD "").data))) }

/-- `Entity.equals` (entity.py lines 128-143): per-key comparison of the
entity's own input parameters against the other entity's; a key missing from
the other entity (`KeyError`) yields `False`. -/
def Entity.equals (self other_entity : Entity) : Bool :=
  self.input_parameters.all (fun kv =>
    match lookupVal other_entity.input_parameters kv.1 with
    | some v => kv.2 = v
    | none => false)

/-! ### Reading entities from tabular input -/

/-- The header loop of `EntityList.read_from_csv` (entity.py lines 299-302):
record each column's index, failing on a column name that is not an input
parameter. -/
def assignIndices : List (String × Option Nat) → List String → Nat →
    Except Unit (List (String × Option Nat))
  | d, [], _ => .ok d
  | d, col :: rest, index =>
    match lookupVal d col with
    | none => .error ()
    | some _ => assignIndices (dictSet d col (some index)) rest (index + 1)

/-- The parameter-reading loop of `EntityList.read_from_csv` (entity.py lines
308-313): look up each input parameter's column index, fetch the cell, and
fail on an unset index (`row[None]`), a short row (`IndexError`) or an empty
value. -/
def readRow (row : List String) :
    List (String × Option Nat) → Except Unit (List (String × String))
  | [] => .ok []
  | (parameter, oi) :: rest =>
    match oi with
    | none => .error ()
    | some i =>
      match row.get? i with
      | none => .error ()
      | some value =>
        if value = "" then .error ()
        else
          match readRow row rest with
          | .error () => .error ()
          | .ok values => .ok ((parameter, value) :: values)

/-- The row loop of `EntityList.read_from_csv` (entity.py lines 305-331),
carrying the accumulated entity list: an empty row is a format error, and
with `ignore_duplicates` a new entity equal to an existing one is dropped. -/
def readRows (configuration : EntityConfiguration)
    (indices : List (String × Option Nat)) :
    List (List String) → List Entity → Except Unit (List Entity)
  | [], acc => .ok acc
  | row :: rest, acc =>
    if row = [] then .error ()
    else
      match readRow row indices with
      | .error () => .error ()
      | .ok input_parameter_values =>
        match Entity.init configuration input_parameter_values with
        | .error () => .error ()
        | .ok new_entity =>
          if configuration.ignore_duplicates then
            if acc.any (fun entity => new_entity.equals entity) then
              readRows configuration indices rest acc
            else
              readRows configuration indices rest (acc ++ [new_entity])
          else
            readRows configuration indices rest (acc ++ [new_entity])

/-- `EntityList.read_from_csv` (entity.py lines 276-333), on an already-parsed
header row and list of data rows. -/
def read_from_csv (configuration : EntityConfiguration)
    (header : List String) (rows : List (List String)) : Except Unit (List Entity) :=
  let input_parameter_indices : List (String × Option Nat) :=
    dict_fromkeys configuration.input_parameters
  if header = [] then .error ()
  else if header.length ≠ input_parameter_indices.length then .error ()
  else
    match assignIndices input_parameter_indices header 0 with
    | .error () => .error ()
    | .ok indices => readRows configuration indices rows []

/-! ### Retrieval -/

/-- What `session.get` comes back with: a caught network-level exception
(`gaierror`, `ConnectionError`, `MaxRetryError`, `NewConnectionError`), or a
response with its `ok` flag and its body — `none` for a body that is not
well-formed JSON. -/
inductive SessionResult where
  | netError : SessionResult
  | response : Bool → Option Json → SessionResult
  deriving DecidableEq

/-- Exceptions that escape `Entity.retrieve_data` and abort the whole run. -/
inductive RetrieveErr where
  /-- `IllegalArgumentError`: a callback with an unsupported parameter count. -/
  | invalidCallback
  /-- `json.loads` failed on the response body (uncaught `ValueError`). -/
  | jsonDecodeError
  /-- An exception escaping `_extract_output_parameters`. -/
  | extractionError : ExtractErr → RetrieveErr
  deriving DecidableEq

/-- The value `Entity.retrieve_data` evaluates to: `True`, `False` (non-2xx),
or the implicit `None` after a caught network exception — the latter two both
falsy for the caller. -/
inductive RetrieveResult where
  | retrieved
  | httpError
  | netFailure
  deriving DecidableEq

/-- The pre-request callback loop (entity.py lines 159-164). -/
def runPre : List PreCallback → Entity → Except Unit Entity
  | [], e => .ok e
  | callback :: rest, e =>
    if callback.parameter_count = 1 then runPre rest (callback.run e)
    else .error ()

/-- The post-request callback loop (entity.py lines 188-195).  Note that the
boolean each callback returns is discarded (`.1`), exactly as the Python
statements `callback(self)` / `callback(self, json_response)` discard it. -/
def runPost (json_response : Json) : List PostCallback → Entity → Except Unit Entity
  | [], e => .ok e
  | callback :: rest, e =>
    if callback.parameter_count = 1 then
      runPost json_response rest (callback.run e none).1
    else if callback.parameter_count = 2 then
      runPost json_response rest (callback.run e (some json_response)).1
    else .error ()

/-- `Entity.retrieve_data` (entity.py lines 148-203), with the HTTP call
abstracted by a `SessionResult`.  A network-level exception is caught and
logged, yielding the implicit falsy `None`; a non-2xx response returns
`False`; otherwise the body is parsed, output parameters are extracted, and
the post-request callbacks run in order. -/
def Entity.retrieve_data (configuration : EntityConfiguration) (self : Entity)
    (session_result : SessionResult) : Except RetrieveErr (Entity × RetrieveResult) :=
  match runPre configuration.pre_request_callbacks self with
  | .error () => .error .invalidCallback
  | .ok e1 =>
    match session_result with
    | .netError => .ok (e1, .netFailure)
    | .response ok text =>
      if ok then
        match text with
        | none => .error .jsonDecodeError
        | some json_response =>
          match extract_output_parameters configuration.output_parameter_mapping
              json_response e1.output_parameters with
          | (_, some e) => .error (.extractionError e)
          | (st, none) =>
            match runPost json_response configuration.post_request_callbacks
                { e1 with output_parameters := st } with
            | .error () => .error .invalidCallback
            | .ok e3 => .ok (e3, .retrieved)
      else .ok (e1, .httpError)

/-- `EntityList.retrieve_data` (entity.py lines 335-343): sequential retrieval
over the list, counting entities whose retrieval returned a truthy value; the
(possibly mutated) entities stay in the list whatever the per-entity result.
An uncaught exception aborts the whole loop. -/
def EntityList.retrieve_data (configuration : EntityConfiguration) :
    List (Entity × SessionResult) → Except RetrieveErr (List Entity × Nat)
  | [] => .ok ([], 0)
  | (entity, sr) :: rest =>
    match Entity.retrieve_data configuration entity sr with
    | .error err => .error err
    | .ok (e', res) =>
      match EntityList.retrieve_data configuration rest with
      | .error err => .error err
      | .ok (es, count) =>
        .ok (e' :: es, if res = .retrieved then count + 1 else count)

/-! ### Export -/

/-- One CSV cell: a header column name, an input-parameter value, or an
output-parameter value. -/
inductive Cell where
  | str : String → Cell
  | inp : Option String → Cell
  | out : Option OutVal → Cell
  deriving DecidableEq

/-- The row-building loop of `EntityList.write_to_csv` (entity.py lines
375-380): a column found among the entity's input parameters contributes its
input value, else a column found among the output parameters contributes its
output value, and a column found in neither contributes nothing — leaving the
row short. -/
def buildRow (column_names : List String) (entity : Entity) : List Cell :=
  column_names.foldl (fun row column_name =>
    match lookupVal entity.input_parameters column_name with
    | some v => row ++ [Cell.inp v]
    | none =>
      match lookupVal entity.output_parameters column_name with
      | some v => row ++ [Cell.out v]
      | none => row) []

/-- The entity loop of `EntityList.write_to_csv` (entity.py lines 373-385):
every entity of the list gets a row; a row shorter than the header raises
`IllegalArgumentError`, which is not caught (only `UnicodeEncodeError` is)
and aborts the export.  Text-encoding failures are outside the model. -/
def writeRows (column_names : List String) : List Entity → Except Unit (List (List Cell))
  | [] => .ok []
  | entity :: rest =>
    let row := buildRow column_names entity
    if row.length = column_names.length then
      match writeRows column_names rest with
      | .error () => .error ()
      | .ok rows => .ok (row :: rows)
    else .error ()

/-- `EntityList.write_to_csv` (entity.py lines 345-390): the header holds the
configured input-parameter names followed by the output-parameter names in
mapping order, then one row per entity in the list. -/
def write_to_csv (configuration : EntityConfiguration) (entities : List Entity) :
    Except Unit (List (List Cell)) :=
  let column_names := configuration.input_parameters
    ++ configuration.output_parameter_mapping.map Prod.fst
  match writeRows column_names entities with
  | .error () => .error ()
  | .ok rows => .ok ((column_names.map Cell.str) :: rows)

/-- Errors aborting the retrieval-then-export sequence. -/
inductive PipelineErr where
  | retrieve : RetrieveErr → PipelineErr
  | export : PipelineErr
  deriving DecidableEq

/-- The driver sequence of spec §2 (control flow: retrieval over the list,
then export of the same list): retrieval mutates the entities in place and
export writes whatever is in the list. -/
def retrieve_then_write (configuration : EntityConfiguration)
    (pairs : List (Entity × SessionResult)) : Except PipelineErr (List (List Cell)) :=
  match EntityList.retrieve_data configuration pairs with
  | .error e => .error (.retrieve e)
  | .ok (entities, _count) =>
    match write_to_csv configuration entities with
    | .error () => .error .export
    | .ok table => .ok table

/-! ### Key-set lemmas for Python dictionaries -/

theorem dictSet_keys_mem {κ α : Type} [DecidableEq κ] (d : List (κ × α)) (k : κ) (v : α)
    (h : k ∈ d.map Prod.fst) : (dictSet d k v).map Prod.fst = d.map Prod.fst := by
  induction d with
  | nil => simp at h
  | cons e rest ih =>
    obtain ⟨k', v'⟩ := e
    by_cases hk : k' = k
    · simp [dictSet, hk]
    · have h'' : k = k' ∨ k ∈ rest.map Prod.fst := by simpa using h
      have h' : k ∈ rest.map Prod.fst := by
        rcases h'' with h1 | h1
        · exact absurd h1.symm hk
        · exact h1
      simp [dictSet, hk, ih h']

theorem mem_keys_dictSet {κ α : Type} [DecidableEq κ] (d : List (κ × α)) (k k' : κ) (v : α) :
    k ∈ (dictSet d k' v).map Prod.fst ↔ k ∈ d.map Prod.fst ∨ k = k' := by
  induction d with
  | nil => simp [dictSet]
  | cons e rest ih =>
    obtain ⟨k0, v0⟩ := e
    by_cases hk : k0 = k'
    · subst hk
      simp [dictSet]
      tauto
    · simp [dictSet, hk, ih]
      tauto

theorem dictSet_keys_not_mem {κ α : Type} [DecidableEq κ] (d : List (κ × α)) (k : κ) (v : α)
    (h : k ∉ d.map Prod.fst) :
    (dictSet d k v).map Prod.fst = d.map Prod.fst ++ [k] := by
  induction d with
  | nil => simp [dictSet]
  | cons e rest ih =>
    obtain ⟨k', v'⟩ := e
    have hk : k' ≠ k := by
      intro hh
      exact h (by simp [hh])
    simp [dictSet, hk, ih (fun hh => h (by simp [hh]))]

theorem dictSet_keys_nodup {κ α : Type} [DecidableEq κ] (d : List (κ × α)) (k : κ) (v : α)
    (h : (d.map Prod.fst).Nodup) : ((dictSet d k v).map Prod.fst).Nodup := by
  by_cases hk : k ∈ d.map Prod.fst
  · rw [dictSet_keys_mem d k v hk]
    exact h
  · rw [dictSet_keys_not_mem d k v hk]
    simp [List.nodup_append, h, hk]

theorem dict_fromkeys_keys_nodup {κ α : Type} [DecidableEq κ] (ks : List κ) :
    ((dict_fromkeys (α := α) ks).map Prod.fst).Nodup := by
  suffices haux : ∀ (d : List (κ × Option α)), (d.map Prod.fst).Nodup →
      (((ks.foldl (fun d k => dictSet d k none) d)).map Prod.fst).Nodup by
    exact haux [] (by simp)
  induction ks with
  | nil => intro d hd; simpa using hd
  | cons k rest ih =>
    intro d hd
    exact ih (dictSet d k none) (dictSet_keys_nodup d k none hd)

theorem mem_keys_dict_fromkeys {κ α : Type} [DecidableEq κ] (ks : List κ) (k : κ) :
    k ∈ (dict_fromkeys (α := α) ks).map Prod.fst ↔ k ∈ ks := by
  suffices haux : ∀ (d : List (κ × Option α)),
      (k ∈ ((ks.foldl (fun d k => dictSet d k none) d)).map Prod.fst
        ↔ k ∈ d.map Prod.fst ∨ k ∈ ks) by
    simpa using haux []
  induction ks with
  | nil => intro d; simp
  | cons k0 rest ih =>
    intro d
    simp only [List.foldl_cons, ih (dictSet d k0 none), mem_keys_dictSet, List.mem_cons]
    tauto

theorem lookupVal_eq_of_mem_nodup {κ α : Type} [DecidableEq κ] (d : List (κ × α))
    (k : κ) (v : α) (hmem : (k, v) ∈ d) (hnd : (d.map Prod.fst).Nodup) :
    lookupVal d k = some v := by
  induction d with
  | nil => simp at hmem
  | cons e rest ih =>
    obtain ⟨k', v'⟩ := e
    have hnd' : (k' :: rest.map Prod.fst).Nodup := by simpa using hnd
    rcases List.mem_cons.mp hmem with h | h
    · obtain ⟨h1, h2⟩ := Prod.mk.inj h.symm
      simp [lookupVal, h1, h2]
    · have hk : k' ≠ k := by
        intro hh
        subst hh
        exact (List.nodup_cons.mp hnd').1 (List.mem_map_of_mem Prod.fst h)
      simp only [lookupVal, if_neg hk]
      exact ih h (List.nodup_cons.mp hnd').2

theorem lookupVal_isSome_iff_mem_keys {κ α : Type} [DecidableEq κ] (d : List (κ × α)) (k : κ) :
    (∃ v, lookupVal d k = some v) ↔ k ∈ d.map Prod.fst := by
  induction d with
  | nil => simp [lookupVal]
  | cons e rest ih =>
    obtain ⟨k', v'⟩ := e
    by_cases hk : k' = k
    · subst hk
      simp [lookupVal]
    · have hkk : k ≠ k' := fun h => hk h.symm
      simp [lookupVal, hk, ih, hkk]

/-! ### Symmetry of `Entity.equals` for entities with the same key set -/

theorem equals_eq_true_iff (e1 e2 : Entity) :
    e1.equals e2 = true ↔
      ∀ kv ∈ e1.input_parameters, lookupVal e2.input_parameters kv.1 = some kv.2 := by
  unfold Entity.equals
  rw [List.all_eq_true]
  constructor
  · intro h kv hkv
    have := h kv hkv
    cases hl : lookupVal e2.input_parameters kv.1 with
    | none => rw [hl] at this; simp at this
    | some v =>
      rw [hl] at this
      simp only [decide_eq_true_eq] at this
      rw [this]
  · intro h kv hkv
    rw [h kv hkv]
    simp

theorem equals_symm_of_same_keys (e1 e2 : Entity)
    (hk : e1.input_parameters.map Prod.fst = e2.input_parameters.map Prod.fst)
    (hnd : (e1.input_parameters.map Prod.fst).Nodup) :
    e1.equals e2 = e2.equals e1 := by
  have hnd2 : (e2.input_parameters.map Prod.fst).Nodup := hk ▸ hnd
  have hdir : ∀ (a b : Entity),
      a.input_parameters.map Prod.fst = b.input_parameters.map Prod.fst →
      (b.input_parameters.map Prod.fst).Nodup →
      a.equals b = true → b.equals a = true := by
    intro a b hkeys hndb hab
    rw [equals_eq_true_iff] at hab ⊢
    intro kv hkv
    have hkmem : kv.1 ∈ a.input_parameters.map Prod.fst := by
      rw [hkeys]
      exact List.mem_map_of_mem Prod.fst hkv
    obtain ⟨va, hva⟩ := (lookupVal_isSome_iff_mem_keys _ _).mpr hkmem
    have hvb : lookupVal b.input_parameters kv.1 = some va := by
      have hmema : (kv.1, va) ∈ a.input_parameters := lookupVal_mem _ _ _ hva
      exact hab (kv.1, va) hmema
    have hvb2 : lookupVal b.input_parameters kv.1 = some kv.2 :=
      lookupVal_eq_of_mem_nodup _ _ _ hkv hndb
    rw [hvb] at hvb2
    rw [hva]
    exact hvb2
  cases h12 : e1.equals e2 with
  | true =>
    exact (hdir e1 e2 hk (hk ▸ hnd) h12).symm
  | false =>
    cases h21 : e2.equals e1 with
    | true =>
      rw [← h12]
      exact (hdir e2 e1 hk.symm hnd h21).symm ▸ rfl
    | false => rfl

/-! ### Key sets produced by `Entity.__init__` -/

theorem setInputs_keys (values : List (String × String)) (params : List String) :
    ∀ (d inputs : List (String × Option String)),
      (∀ p ∈ params, p ∈ d.map Prod.fst) →
      setInputs values params d = .ok inputs →
      inputs.map Prod.fst = d.map Prod.fst := by
  induction params with
  | nil =>
    intro d inputs _ h
    simp only [setInputs] at h
    cases h
    rfl
  | cons p rest ih =>
    intro d inputs hsub h
    simp only [setInputs] at h
    cases hl : lookupVal values p with
    | none => rw [hl] at h; cases h
    | some v =>
      rw [hl] at h
      have hkeys := dictSet_keys_mem d p (some v) (hsub p (by simp))
      have := ih (dictSet d p (some v)) inputs
        (fun p' hp' => by rw [hkeys]; exact hsub p' (by simp [hp'])) h
      rw [this, hkeys]

theorem entity_init_keys (configuration : EntityConfiguration)
    (values : List (String × String)) (e : Entity)
    (h : Entity.init configuration values = .ok e) :
    e.input_parameters.map Prod.fst
      = (dict_fromkeys (α := String) configuration.input_parameters).map Prod.fst := by
  unfold Entity.init at h
  cases hs : setInputs values configuration.input_parameters
      (dict_fromkeys configuration.input_parameters) with
  | error u => rw [hs] at h; cases h
  | ok inputs =>
    rw [hs] at h
    cases h
    exact setInputs_keys values configuration.input_parameters _ inputs
      (fun p hp => (mem_keys_dict_fromkeys _ p).mpr hp) hs

theorem entity_init_keys_nodup (configuration : EntityConfiguration)
    (values : List (String × String)) (e : Entity)
    (h : Entity.init configuration values = .ok e) :
    (e.input_parameters.map Prod.fst).Nodup := by
  rw [entity_init_keys configuration values e h]
  exact dict_fromkeys_keys_nodup _

instance {ε α : Type} [DecidableEq ε] [DecidableEq α] : DecidableEq (Except ε α)
  | .error e1, .error e2 =>
    if h : e1 = e2 then .isTrue (h ▸ rfl) else .isFalse (fun hh => h (Except.error.inj hh))
  | .ok a1, .ok a2 =>
    if h : a1 = a2 then .isTrue (h ▸ rfl) else .isFalse (fun hh => h (Except.ok.inj hh))
  | .error _, .ok _ => .isFalse (fun h => Except.noConfusion h)
  | .ok _, .error _ => .isFalse (fun h => Except.noConfusion h)

/-! ### Claim C8: duplicate suppression -/

/-- The duplicate-suppression invariant is preserved by the row-reading loop:
if the accumulated entities all share the configured key set and are pairwise
non-equal, so are the entities after reading the remaining rows. -/
theorem readRows_pairwise (configuration : EntityConfiguration)
    (indices : List (String × Option Nat)) (rows : List (List String)) :
    ∀ (acc es : List Entity),
      configuration.ignore_duplicates = true →
      (∀ e ∈ acc, e.input_parameters.map Prod.fst
        = (dict_fromkeys (α := String) configuration.input_parameters).map Prod.fst) →
      acc.Pairwise (fun a b => a.equals b = false ∧ b.equals a = false) →
      readRows configuration indices rows acc = .ok es →
      es.Pairwise (fun a b => a.equals b = false ∧ b.equals a = false) := by
  induction rows with
  | nil =>
    intro acc es _ _ hpw h
    simp only [readRows] at h
    cases h
    exact hpw
  | cons row rest ih =>
    intro acc es hdup hkeys hpw h
    simp only [readRows] at h
    by_cases hrow : row = []
    · rw [if_pos hrow] at h
      cases h
    · rw [if_neg hrow] at h
      cases hr : readRow row indices with
      | error u =>
        simp only [hr] at h
        exact Except.noConfusion h
      | ok values =>
        simp only [hr] at h
        cases hi : Entity.init configuration values with
        | error u =>
          simp only [hi] at h
          exact Except.noConfusion h
        | ok new_entity =>
          simp only [hi, hdup, if_true] at h
          by_cases hex : acc.any (fun entity => new_entity.equals entity) = true
          · rw [if_pos hex] at h
            exact ih acc es hdup hkeys hpw h
          · rw [if_neg hex] at h
            have hexf : ∀ e ∈ acc, new_entity.equals e = false := by
              intro e he
              have hall : acc.any (fun entity => new_entity.equals entity) = false :=
                Bool.eq_false_iff.mpr hex
              exact Bool.eq_false_iff.mpr ((List.any_eq_false.mp hall) e he)
            have hknew := entity_init_keys configuration values new_entity hi
            refine ih (acc ++ [new_entity]) es hdup ?_ ?_ h
            · intro e he
              rcases List.mem_append.mp he with he | he
              · exact hkeys e he
              · simp only [List.mem_singleton] at he
                rw [he]
                exact hknew
            · rw [List.pairwise_append]
              refine ⟨hpw, List.pairwise_singleton _ _, ?_⟩
              intro a ha b hb
              simp only [List.mem_singleton] at hb
              rw [hb]
              have hnewa : new_entity.equals a = false := hexf a ha
              have hsym : a.equals new_entity = new_entity.equals a := by
                refine equals_symm_of_same_keys a new_entity ?_ ?_
                · rw [hkeys a ha, hknew]
                · rw [hkeys a ha]
                  exact dict_fromkeys_keys_nodup _
              exact ⟨hsym ▸ hnewa, hnewa⟩

/--
C8: For every input table read with `ignore_duplicates` set, no two entities
in the resulting collection have input parameters that compare equal under
per-key equality (`Entity.equals`, in either direction); in particular, two
rows with identical input-parameter values produce exactly one entity (the
witness below reads two identical rows into a one-entity collection).
-/
theorem read_from_csv_no_equal_pair (configuration : EntityConfiguration)
    (header : List String) (rows : List (List String)) (es : List Entity)
    (hdup : configuration.ignore_duplicates = true)
    (h : read_from_csv configuration header rows = .ok es) :
    es.Pairwise (fun a b => a.equals b = false ∧ b.equals a = false) := by
  unfold read_from_csv at h
  by_cases h1 : header = []
  · rw [if_pos h1] at h
    cases h
  · rw [if_neg h1] at h
    by_cases h2 : header.length
        ≠ (dict_fromkeys (α := Nat) configuration.input_parameters).length
    · rw [if_pos h2] at h
      cases h
    · rw [if_neg h2] at h
      cases ha : assignIndices (dict_fromkeys configuration.input_parameters) header 0 with
      | error u =>
        simp only [ha] at h
        exact Except.noConfusion h
      | ok indices =>
        simp only [ha] at h
        exact readRows_pairwise configuration indices rows [] es hdup
          (by simp) (List.Pairwise.nil) h

/-- Concrete configuration for the C8 witness. -/
def cfgC8 : EntityConfiguration :=
  { input_parameters := ["id"],
    output_parameter_mapping := [("name", [MapElem.str ".", MapElem.keys ["login"]])],
    uri_template := [], api_key := [],
    pre_request_callbacks := [], post_request_callbacks := [],
    ignore_duplicates := true }

/-- The single entity the C8 witness table produces. -/
def entC8 : Entity :=
  { input_parameters := [("id", some "42")],
    output_parameters := [("name", none)],
    uri := [] }

/-- Witness for C8 at a concrete input: two identical rows `42` produce
exactly one entity, and the resulting collection is pairwise non-equal. -/
theorem read_from_csv_no_equal_pair_witness :
    cfgC8.ignore_duplicates = true ∧
    read_from_csv cfgC8 ["id"] [["42"], ["42"]] = .ok [entC8] ∧
    [entC8].Pairwise (fun a b => a.equals b = false ∧ b.equals a = false) := by
  have hread : read_from_csv cfgC8 ["id"] [["42"], ["42"]] = .ok [entC8] := by
    simp +decide [read_from_csv, readRows, readRow, assignIndices, Entity.init, setInputs,
      cfgC8, entC8, dict_fromkeys, dictSet, lookupVal, Entity.equals,
      replace_variables, findVars]
  exact ⟨rfl, hread,
    read_from_csv_no_equal_pair cfgC8 ["id"] [["42"], ["42"]] [entC8] rfl hread⟩

/-! ### Claim C1: post-request callback filtering -/

/-- Concrete configuration for C1: one input parameter `id`, one output
parameter `name` extracted from `login`, and a single post-request callback
that returns `False` for every entity. -/
def cfgC1 : EntityConfiguration :=
  { input_parameters := ["id"],
    output_parameter_mapping := [("name", [MapElem.str ".", MapElem.keys ["login"]])],
    uri_template := [], api_key := [],
    pre_request_callbacks := [],
    post_request_callbacks := [{ parameter_count := 1, run := fun e _ => (e, false) }],
    ignore_duplicates := false }

/-- The single entity of the C1 scenario, as constructed from the row `42`. -/
def entC1 : Entity :=
  { input_parameters := [("id", some "42")],
    output_parameters := [("name", none)],
    uri := [] }

/--
C1: the claim states that an entity for which a post-request callback returns
`False` is excluded from the final export, and that a callback returning
`False` for every entity yields a header-only output table.  This theorem
evaluates the embedded code at that exact scenario: the configured callback
returns `False` for every entity (first conjunct), yet the exported table
still contains the entity's full data row (second conjunct), and is therefore
not the header-only table the claim predicts (third conjunct).  The cause:
`Entity.retrieve_data` discards the boolean each post-request callback
returns (entity.py lines 190-193), and `EntityList.write_to_csv` writes a row
for every entity in the list (entity.py line 373).
-/
theorem post_false_entity_still_exported :
    (∀ cb ∈ cfgC1.post_request_callbacks, ∀ e j, (cb.run e j).2 = false) ∧
    retrieve_then_write cfgC1
        [(entC1, SessionResult.response true (some (.obj [("login", .str "octocat")])))]
      = .ok [[Cell.str "id", Cell.str "name"],
             [Cell.inp (some "42"), Cell.out (some (.json (.str "octocat")))]] ∧
    retrieve_then_write cfgC1
        [(entC1, SessionResult.response true (some (.obj [("login", .str "octocat")])))]
      ≠ .ok [[Cell.str "id", Cell.str "name"]] := by
  refine ⟨?_, by decide, by decide⟩
  intro cb hcb e j
  simp only [cfgC1, List.mem_singleton] at hcb
  rw [hcb]

/-! ### Claim C2: transport failures -/

/-- Concrete configuration for C2: like the C1 scenario but with no
callbacks. -/
def cfgC2 : EntityConfiguration :=
  { input_parameters := ["id"],
    output_parameter_mapping := [("name", [MapElem.str ".", MapElem.keys ["login"]])],
    uri_template := [], api_key := [],
    pre_request_callbacks := [],
    post_request_callbacks := [],
    ignore_duplicates := false }

/-- The single entity of the C2 scenario. -/
def entC2 : Entity :=
  { input_parameters := [("id", some "42")],
    output_parameters := [("name", none)],
    uri := [] }

/--
C2 counterexample: the claim states that an entity whose retrieval fails with
a transport error is excluded from export, with no output row, partial or
otherwise, written for it.  With a non-2xx response for the single entity,
the exported table nevertheless contains a row for it — its input value plus
an absent output value — so the claim is false on the code.
-/
theorem transport_failure_row_still_written :
    retrieve_then_write cfgC2 [(entC2, SessionResult.response false none)]
      = .ok [[Cell.str "id", Cell.str "name"], [Cell.inp (some "42"), Cell.out none]] ∧
    retrieve_then_write cfgC2 [(entC2, SessionResult.response false none)]
      ≠ .ok [[Cell.str "id", Cell.str "name"]] := by
  exact ⟨by decide, by decide⟩

/--
C2 (amended): a transport failure — a network-level exception from
`session.get` or a non-2xx response — is terminal for that entity's
*processing*: `retrieve_data` comes back falsy and the entity is returned
unchanged, so nothing is extracted and no post-request callback runs.  The
entity is however *not* excluded from export: it stays in the list, and the
export still writes its row (input values and never-populated output values).
A malformed JSON body, by contrast, raises an uncaught decode error that
aborts the whole run, not just the entity.  The row-length hypothesis says
every output column resolves, as it does for any entity built by
`Entity.__init__` against its own configuration.
-/
theorem transport_failure_terminal_not_excluded
    (configuration : EntityConfiguration) (e : Entity) (sr : SessionResult)
    (hpre : configuration.pre_request_callbacks = [])
    (hfail : sr = SessionResult.netError ∨ ∃ t, sr = SessionResult.response false t)
    (hrow : (buildRow (configuration.input_parameters
        ++ configuration.output_parameter_mapping.map Prod.fst) e).length
      = (configuration.input_parameters
        ++ configuration.output_parameter_mapping.map Prod.fst).length) :
    (∃ r, Entity.retrieve_data configuration e sr = .ok (e, r)
        ∧ r ≠ RetrieveResult.retrieved) ∧
    retrieve_then_write configuration [(e, sr)]
      = .ok [(configuration.input_parameters
            ++ configuration.output_parameter_mapping.map Prod.fst).map Cell.str,
          buildRow (configuration.input_parameters
            ++ configuration.output_parameter_mapping.map Prod.fst) e] := by
  have hret : ∃ r, Entity.retrieve_data configuration e sr = .ok (e, r)
      ∧ r ≠ RetrieveResult.retrieved := by
    rcases hfail with h | ⟨t, h⟩ <;> subst h
    · exact ⟨.netFailure, by simp [Entity.retrieve_data, hpre, runPre], by decide⟩
    · exact ⟨.httpError, by simp [Entity.retrieve_data, hpre, runPre], by decide⟩
  obtain ⟨r, hr, hnr⟩ := hret
  refine ⟨⟨r, hr, hnr⟩, ?_⟩
  unfold retrieve_then_write
  have hlist : EntityList.retrieve_data configuration [(e, sr)]
      = .ok ([e], if r = RetrieveResult.retrieved then 0 + 1 else 0) := by
    simp only [EntityList.retrieve_data, hr]
  rw [hlist]
  have hw : write_to_csv configuration [e]
      = .ok [(configuration.input_parameters
            ++ configuration.output_parameter_mapping.map Prod.fst).map Cell.str,
          buildRow (configuration.input_parameters
            ++ configuration.output_parameter_mapping.map Prod.fst) e] := by
    unfold write_to_csv
    simp only [writeRows, if_pos hrow]
  simp only [hw]

/-- Witness for the amended C2 at a concrete input: a non-2xx response leaves
the entity's processing falsy but its row is still exported. -/
theorem transport_failure_terminal_not_excluded_witness :
    (cfgC2.pre_request_callbacks = [] ∧
      ((SessionResult.response false none : SessionResult) = SessionResult.netError ∨
        ∃ t, (SessionResult.response false none : SessionResult)
          = SessionResult.response false t) ∧
      (buildRow (cfgC2.input_parameters
          ++ cfgC2.output_parameter_mapping.map Prod.fst) entC2).length
        = (cfgC2.input_parameters
          ++ cfgC2.output_parameter_mapping.map Prod.fst).length) ∧
    (∃ r, Entity.retrieve_data cfgC2 entC2 (SessionResult.response false none)
        = .ok (entC2, r) ∧ r ≠ RetrieveResult.retrieved) ∧
    retrieve_then_write cfgC2 [(entC2, SessionResult.response false none)]
      = .ok [(cfgC2.input_parameters
            ++ cfgC2.output_parameter_mapping.map Prod.fst).map Cell.str,
          buildRow (cfgC2.input_parameters
            ++ cfgC2.output_parameter_mapping.map Prod.fst) entC2] := by
  refine ⟨⟨rfl, Or.inr ⟨none, rfl⟩, by decide⟩, ?_⟩
  exact transport_failure_terminal_not_excluded cfgC2 entC2
    (SessionResult.response false none) rfl (Or.inr ⟨none, rfl⟩) (by decide)

/-! ### Claim C4: validation parameters (modelled from the spec) -/

mutual

/-- Modelled from the spec: Python string coercion `str(v)` of a parsed JSON
value, as used by the validation comparison ("string equality after
string-coercion", spec §4.2).  The exact rendering of composite values is not
fixed by the spec; only the comparison discipline matters to the claim. -/
def pyStr : Json → String
  | .bool b => cond b "True" "False"
  | .num n => toString n
  | .str s => s
  | .arr xs => "[" ++ pyStrList xs ++ "]"
  | .obj fs => "\x7b" ++ pyStrObj fs ++ "\x7d"

/-- Comma-joined renderings of array elements. -/
def pyStrList : List Json → String
  | [] => ""
  | [x] => pyStr x
  | x :: y :: xs => pyStr x ++ ", " ++ pyStrList (y :: xs)

/-- Comma-joined renderings of object fields. -/
def pyStrObj : List (String × Json) → String
  | [] => ""
  | [(k, v)] => k ++ ": " ++ pyStr v
  | (k, v) :: f :: fs => k ++ ": " ++ pyStr v ++ ", " ++ pyStrObj (f :: fs)

end

/-- Modelled from the spec: validation-parameter handling (spec §4.2 and §8
"Validation"), which is absent from the code under `src/` — entity.py's
docstrings declare optional validation parameters but no implementation
exists.  `validation_parameters` maps a parameter name to its expected value.
When extraction produces value `v` for a declared validation parameter, the
result is compared by string coercion against the expected value: on
equality the stored value is unchanged and no failure is logged; on mismatch
a validation failure is logged (the returned boolean) and the stored value is
updated to the observed value.  Nothing is raised in either case and further
processing of the entity is not blocked: the operation is total and returns
the updated map. -/
def applyValidation (validation_parameters : List (String × Json))
    (name : String) (v : Json) : List (String × Json) × Bool :=
  match lookupVal validation_parameters name with
  | none => (validation_parameters, false)
  | some expected =>
    if pyStr v = pyStr expected then (validation_parameters, false)
    else (dictSet validation_parameters name v, true)

/--
C4: For every declared validation parameter with expected value `E` and every
extracted value `V`: if `str(V)` equals `str(E)`, the stored validation value
is unchanged and no failure is logged; otherwise a validation failure is
logged and the stored validation value becomes `V`, with every other
validation parameter untouched.  The operation never raises (it is total) and
never blocks further processing.
-/
theorem validation_parameter_update (vp : List (String × Json)) (name : String)
    (E V : Json) (hdecl : lookupVal vp name = some E) :
    (pyStr V = pyStr E → applyValidation vp name V = (vp, false)) ∧
    (pyStr V ≠ pyStr E →
      applyValidation vp name V = (dictSet vp name V, true) ∧
      lookupVal (dictSet vp name V) name = some V ∧
      ∀ q, q ≠ name → lookupVal (dictSet vp name V) q = lookupVal vp q) := by
  constructor
  · intro h
    simp [applyValidation, hdecl, h]
  · intro h
    refine ⟨by simp [applyValidation, hdecl, h], lookupVal_dictSet_self vp name V,
      fun q hq => lookupVal_dictSet_ne vp name q V hq⟩

/-- Witness for C4 at a concrete input: expected `octocat`, observed `other`;
the mismatch updates the stored value and flags a failure. -/
theorem validation_parameter_update_witness :
    lookupVal [("login", Json.str "octocat")] "login" = some (Json.str "octocat") ∧
    applyValidation [("login", Json.str "octocat")] "login" (Json.str "other")
      = ([("login", Json.str "other")], true) := by
  refine ⟨rfl, ?_⟩
  have h := (validation_parameter_update [("login", Json.str "octocat")] "login"
    (Json.str "octocat") (Json.str "other") rfl).2
  have hne : pyStr (Json.str "other") ≠ pyStr (Json.str "octocat") := by
    simp [pyStr]
  obtain ⟨heq, _, _⟩ := h hne
  simpa [dictSet] using heq

end ApiRetriever
